import Mathlib

set_option linter.unusedVariables false

/-!
A shallow embedding of the safe-chain registry proxy core, translated from the
JavaScript sources of the repository: the interceptor builder
(`interceptorBuilder.js`), the npm packument rewriter (`modifyNpmInfo.js`), the
npm interceptor (`npmInterceptor.js`), the pip URL parser (`pipInterceptor.js`),
the proxy controller and MITM forwarding path (`mitmRequestHandler.js` /
`registryProxy.js`), the CLI-argument parser (`cliArguments.js`), the settings
module (`settings.js`), and the wrapper orchestrator (`main.js` /
`scanning/index.js`).

JavaScript objects are modelled as ordered association lists (property
insertion order), strings are Lean `String`s manipulated through their
character lists, and machine time is an `Int` count of milliseconds since the
epoch (the value of `Date.prototype.getTime`).  Impure inputs (the malware
oracle, `Date.now()`, the dependency resolver) are threaded as explicit
parameters.
-/

/-- JSON / JavaScript values as they occur in packuments and headers.  Object
fields are an ordered association list, mirroring JavaScript property insertion
order (packument keys are never integer-like, so `JSON.parse` preserves their
textual order).  Numbers are modelled as `Int`: the embedded code never
manipulates fractional JSON numbers. -/
inductive JsValue where
  | str (s : String)
  | num (n : Int)
  | jbool (b : Bool)
  | jnull
  | obj (fields : List (String × JsValue))
  | arr (elems : List JsValue)

/-- JavaScript truthiness of a value (`undefined` is handled by `truthyOpt`). -/
def JsValue.truthy : JsValue → Bool
  | .str s => !(s.data.isEmpty)
  | .num n => n != 0
  | .jbool b => b
  | .jnull => false
  | .obj _ => true
  | .arr _ => true

/-- Truthiness of a possibly-undefined value (`none` models `undefined`). -/
def truthyOpt (v : Option JsValue) : Bool :=
  match v with
  | some x => x.truthy
  | none => false

/-- First binding of a key in an association list (JavaScript objects have
unique keys, so first-match lookup coincides with property access). -/
def lookupField : List (String × JsValue) → String → Option JsValue
  | [], _ => none
  | (k, v) :: rest, key => if k = key then some v else lookupField rest key

/-- Property access `v[key]`; on non-objects the properties accessed by the
embedded code are all `undefined`. -/
def JsValue.getProp : JsValue → String → Option JsValue
  | .obj fields, key => lookupField fields key
  | _, _ => none

/-- Nested property access `v[k1][k2]`, only used after `v[k1]` was checked to
be truthy. -/
def getProp2 (v : JsValue) (k1 k2 : String) : Option JsValue :=
  match v.getProp k1 with
  | some w => w.getProp k2
  | none => none

/-- JavaScript property assignment on an association list: update the value in
place if the key exists, otherwise append the new property at the end. -/
def setField : List (String × JsValue) → String → JsValue → List (String × JsValue)
  | [], key, val => [(key, val)]
  | (k, v) :: rest, key, val =>
      if k = key then (key, val) :: rest else (k, v) :: setField rest key val

/-- Property assignment `v[key] = val` (a no-op on non-objects; the embedded
code only assigns to objects). -/
def JsValue.setProp : JsValue → String → JsValue → JsValue
  | .obj fields, key, val => .obj (setField fields key val)
  | v, _, _ => v

/-- `delete v[key]` (JavaScript objects have unique keys, so removing every
binding of the key coincides with `delete`). -/
def JsValue.deleteProp : JsValue → String → JsValue
  | .obj fields, key => .obj (fields.filter (fun kv => kv.1 != key))
  | v, _ => v

/-- `Object.entries` for the object values the embedded code iterates over
(`time` and `dist-tags` of a packument; non-objects do not occur there). -/
def JsValue.entries : JsValue → List (String × JsValue)
  | .obj fields => fields
  | _ => []

/-- In-place mutation of a nested object: `f` applied to the value stored under
`key`, modelling statements like `delete json.time[version]` that mutate the
object reached through `json`. -/
def JsValue.updateField (j : JsValue) (key : String) (f : JsValue → JsValue) : JsValue :=
  match j with
  | .obj fields => .obj (fields.map (fun kv => if kv.1 = key then (kv.1, f kv.2) else kv))
  | v => v

/-- Whether a value is an object. -/
def JsValue.isObj : JsValue → Bool
  | .obj _ => true
  | _ => false

/-- A node.js header value: a string or an array of strings. -/
inductive HeaderValue where
  | single (v : String)
  | multi (vs : List String)

/-- A node.js header mapping (header names are already lowercased by node). -/
abbrev Headers := List (String × HeaderValue)

/-- First binding of a header name. -/
def lookupHeader : Headers → String → Option HeaderValue
  | [], _ => none
  | (k, v) :: rest, key => if k = key then some v else lookupHeader rest key

/-- ASCII lowering of one character; the embedded code only lowercases header
values, media types and command-line flags, which are ASCII. -/
def asciiLower (c : Char) : Char :=
  if 'A' ≤ c ∧ c ≤ 'Z' then Char.ofNat (c.toNat + 32) else c

/-- `String.prototype.toLowerCase` restricted to ASCII (all strings lowercased
by the embedded code are ASCII). -/
def strToLower (s : String) : String :=
  String.mk (s.data.map asciiLower)

/-- Whether `pat` is a leading run of `l`. -/
def charListIsPre : List Char → List Char → Bool
  | [], _ => true
  | _ :: _, [] => false
  | a :: as, b :: bs => a = b && charListIsPre as bs

/-- `String.prototype.includes`, on character lists. -/
def charListIncludes : List Char → List Char → Bool
  | [], pat => charListIsPre pat []
  | c :: rest, pat => charListIsPre pat (c :: rest) || charListIncludes rest pat

/-- `s.includes(pat)`. -/
def strIncludes (s pat : String) : Bool :=
  charListIncludes s.data pat.data

/-- `s.startsWith(pat)`. -/
def strStartsWith (s pat : String) : Bool :=
  charListIsPre pat.data s.data

/-- `s.endsWith(pat)`. -/
def strEndsWith (s pat : String) : Bool :=
  charListIsPre pat.data.reverse s.data.reverse

/-- `String.prototype.split` with a one-character separator, on characters. -/
def splitCharList (sep : Char) : List Char → List (List Char)
  | [] => [[]]
  | c :: rest =>
      let r := splitCharList sep rest
      if c = sep then [] :: r
      else
        match r with
        | [] => [[c]]
        | h :: t => (c :: h) :: t

/-- `s.split(sep)` for a one-character separator. -/
def strSplitOn (s : String) (sep : Char) : List String :=
  (splitCharList sep s.data).map String.mk

/-- `getHeaderValueAsString` from `http-utils.js`: `undefined` headers give
`undefined`; array values are joined with `", "`. -/
def getHeaderValueAsString (headers : Option Headers) (headerName : String) : Option String :=
  match headers with
  | none => none
  | some hs =>
      match lookupHeader hs headerName with
      | some (.multi vs) => some (String.intercalate ", " vs)
      | some (.single v) => some v
      | none => none

/-- `delete headers[name]`. -/
def deleteHeader (hs : Headers) (name : String) : Headers :=
  hs.filter (fun kv => kv.1 != name)

/-- `headers[name] = v` (update in place or append, as JavaScript assignment). -/
def setHeaderField : Headers → String → String → Headers
  | [], key, v => [(key, .single v)]
  | (k, hv) :: rest, key, v =>
      if k = key then (key, .single v) :: rest else (k, hv) :: setHeaderField rest key v

/-- A decimal digit, or `none`. -/
def digitVal (c : Char) : Option Nat :=
  if '0' ≤ c ∧ c ≤ '9' then some (c.toNat - 48) else none

/-- Days between 1970-01-01 and the civil date `y-m-d` (proleptic Gregorian). -/
def daysFromCivil (y m d : Int) : Int :=
  let y2 := if m ≤ 2 then y - 1 else y
  let era := y2 / 400
  let yoe := y2 - era * 400
  let mp := (m + 9) % 12
  let doy := (153 * mp + 2) / 5 + d - 1
  let doe := yoe * 365 + yoe / 4 - yoe / 100 + doy
  era * 146097 + doe - 719468

/-- `Date.parse` restricted to the ISO-8601 forms that occur as packument
`time` values (`YYYY-MM-DD`, optionally `THH:MM:SS` or `THH:MM:SS.sss`
followed by `Z`); any other string is an invalid date (`NaN`), modelled as
`none`.  The result is in milliseconds since the epoch. -/
def parseDateMillis (s : String) : Option Int :=
  match s.data with
  | y1 :: y2 :: y3 :: y4 :: '-' :: m1 :: m2 :: '-' :: d1 :: d2 :: rest =>
      match digitVal y1, digitVal y2, digitVal y3, digitVal y4,
            digitVal m1, digitVal m2, digitVal d1, digitVal d2 with
      | some a, some b, some c, some d, some e, some f, some g, some h =>
          let year : Int := Int.ofNat (a * 1000 + b * 100 + c * 10 + d)
          let month : Int := Int.ofNat (e * 10 + f)
          let day : Int := Int.ofNat (g * 10 + h)
          if 1 ≤ month ∧ month ≤ 12 ∧ 1 ≤ day ∧ day ≤ 31 then
            let base := daysFromCivil year month day * 86400000
            match rest with
            | [] => some base
            | 'T' :: h1 :: h2 :: ':' :: mi1 :: mi2 :: ':' :: s1 :: s2 :: rest2 =>
                match digitVal h1, digitVal h2, digitVal mi1, digitVal mi2,
                      digitVal s1, digitVal s2 with
                | some p, some q, some r, some t, some u, some v =>
                    let hh := p * 10 + q
                    let mm := r * 10 + t
                    let ss := u * 10 + v
                    if hh ≤ 23 ∧ mm ≤ 59 ∧ ss ≤ 59 then
                      let tmillis : Int :=
                        Int.ofNat (hh * 3600000 + mm * 60000 + ss * 1000)
                      match rest2 with
                      | ['Z'] => some (base + tmillis)
                      | '.' :: x1 :: x2 :: x3 :: ['Z'] =>
                          match digitVal x1, digitVal x2, digitVal x3 with
                          | some j, some k, some l =>
                              some (base + tmillis + Int.ofNat (j * 100 + k * 10 + l))
                          | _, _, _ => none
                      | _ => none
                    else none
                | _, _, _, _, _, _ => none
            | _ => none
          else none
      | _, _, _, _, _, _, _, _ => none
  | _ => none

/-- `new Date(timestamp) > cutOff` from the rewriter loop: string timestamps
are parsed (an unparsable string is `NaN`, and `NaN > x` is false); numeric
timestamps are epoch milliseconds; other value shapes do not occur as packument
times and compare false. -/
def jsDateAfter (v : JsValue) (cutoffMillis : Int) : Bool :=
  match v with
  | .str s =>
      match parseDateMillis s with
      | some ms => cutoffMillis < ms
      | none => false
  | .num n => cutoffMillis < n
  | _ => false

/-- Lexicographic order on character lists by code point, the restriction of
the JavaScript `<` operator to strings (packument timestamps are ASCII, where
UTF-16 unit order and code-point order agree). -/
def charListLt : List Char → List Char → Bool
  | [], [] => false
  | [], _ :: _ => true
  | _ :: _, [] => false
  | a :: as, b :: bs =>
      if a < b then true
      else if b < a then false
      else charListLt as bs

/-- The JavaScript `<` comparison as used in `getMostRecentTag` between two
stored `time` values: string-to-string is lexicographic; number-to-number is
numeric; mixed shapes (which coerce through `NaN` for the values at hand)
compare false. -/
def jsLtVal (a b : JsValue) : Bool :=
  match a, b with
  | .str x, .str y => charListLt x.data y.data
  | .num x, .num y => x < y
  | _, _ => false

/-- The allow-list of `modifyNpmInfo.js` (`allowedBasePackages`). -/
def allowedBasePackages : List String :=
  ["@brightspace-hmc", "@brightspace-ui", "@brightspace-ui-labs",
   "d2l-hypermedia-constants", "d2l-license-checker", "d2l-npm-login",
   "d2l-test-reporting", "eslint-config-brightspace", "frau-publisher",
   "messageformat-validator"]

/-- `isPackageExemptFromAgeCheck` from `modifyNpmInfo.js`.  `undefined` is not
exempt; for a string name the base package (the `@scope` of a scoped name, the
whole name otherwise) is looked up in the allow-list.  A defined non-string
`name` would make `.startsWith` throw a `TypeError` that the rewriter's
`try`/`catch` swallows: that is modelled as `.error`. -/
def isPackageExemptFromAgeCheck : Option JsValue → Except Unit Bool
  | none => .ok false
  | some (.str s) =>
      let basePackageName := if strStartsWith s "@" then ((strSplitOn s '/').headD s) else s
      .ok (allowedBasePackages.contains basePackageName)
  | some _ => .error ()

/-- Loose equality `version == distVersion` between the removed version string
and a dist-tag value (dist-tag values are version strings; non-string values
would coerce numerically and do not occur). -/
def jsLooseEqStr (version : String) (v : JsValue) : Bool :=
  match v with
  | .str s => version = s
  | _ => false

/-- `deleteVersionFromJson` from `modifyNpmInfo.js`: remove the version from
`time` and from `versions`, and delete every dist-tag that points at it.  (The
function also sets the process-wide `hasSuppressedVersions` flag and writes a
verbose log, both irrelevant to the returned document.) -/
def deleteVersionFromJson (json : JsValue) (version : String) : JsValue :=
  let json := json.updateField "time" (fun t => t.deleteProp version)
  let json := json.updateField "versions" (fun t => t.deleteProp version)
  json.updateField "dist-tags" (fun dt =>
    match dt with
    | .obj fields => .obj (fields.filter (fun kv => !(jsLooseEqStr version kv.2)))
    | v => v)

/-- `delete headers["etag"]; delete headers["last-modified"];
delete headers["cache-control"]` from the rewriter's removal branch. -/
def deleteCachingHeaders (hs : Headers) : Headers :=
  deleteHeader (deleteHeader (deleteHeader hs "etag") "last-modified") "cache-control"

/-- The `versions` list the rewriter iterates over: `Object.entries(bodyJson.time)`
without the `created` and `modified` bookkeeping keys. -/
def packumentTimeVersions (bodyJson : JsValue) : List (String × JsValue) :=
  (JsValue.entries ((bodyJson.getProp "time").getD .jnull)).filter
    (fun x => x.1 != "created" && x.1 != "modified")

/-- One iteration of the rewriter's removal loop: a non-exempt version whose
timestamp is newer than the cutoff is deleted from the document and the caching
headers are dropped. -/
def npmFilterStep (cutoffMillis : Int) (isExempt : Bool) (acc : JsValue × Headers)
    (entry : String × JsValue) : JsValue × Headers :=
  if !isExempt && jsDateAfter entry.2 cutoffMillis then
    (deleteVersionFromJson acc.1 entry.1, deleteCachingHeaders acc.2)
  else acc

/-- The rewriter's removal loop over the (pre-computed) `time` entries. -/
def npmFilterStage (cutoffMillis : Int) (isExempt : Bool)
    (entries : List (String × JsValue)) (acc : JsValue × Headers) : JsValue × Headers :=
  entries.foldl (npmFilterStep cutoffMillis isExempt) acc

/-- One iteration of `getMostRecentTag`: the running maximum is replaced when
it is still unset (or holds a falsy timestamp) or compares `<` to the next
timestamp. -/
def getMostRecentTagStep (acc : Option String × Option JsValue)
    (e : String × JsValue) : Option String × Option JsValue :=
  if !truthyOpt acc.2 || (match acc.2 with | some c => jsLtVal c e.2 | none => false) then
    (some e.1, some e.2)
  else acc

/-- `getMostRecentTag` from `modifyNpmInfo.js`: the key of the entry holding
the greatest timestamp (first such entry under the source's strict-`<`
update). -/
def getMostRecentTag (tagList : List (String × JsValue)) : Option String :=
  (tagList.foldl getMostRecentTagStep (none, none)).1

/-- `Object.fromEntries` followed by `Object.entries`: later bindings of a
duplicated key overwrite the earlier value at the earlier position (JavaScript
object insertion-order semantics).  On the duplicate-free lists produced by
`JSON.parse` this is the identity. -/
def fromEntries (l : List (String × JsValue)) : List (String × JsValue) :=
  l.foldl (fun acc kv => setField acc kv.1 kv.2) []

/-- `calculateLatestTag` from `modifyNpmInfo.js`: over the `time` entries
(minus `created`/`modified`), prefer the most recent version without a `-` in
the version string; a falsy result (no such version, or the empty version key)
falls back to the most recent version with a `-`; `undefined` if neither
exists. -/
def calculateLatestTag (tagList : JsValue) : Option String :=
  let entries := (JsValue.entries tagList).filter
    (fun x => x.1 != "created" && x.1 != "modified")
  let latestFullRelease := getMostRecentTag (fromEntries
    (entries.filter (fun x => !strIncludes x.1 "-")))
  if (match latestFullRelease with | some v => v != "" | none => false) then
    latestFullRelease
  else
    getMostRecentTag (fromEntries (entries.filter (fun x => strIncludes x.1 "-")))

/-- The media-type precondition of the rewriter: the `content-type` header is
present and contains `application/json` (case-insensitively). -/
def contentTypeIsJson (headers : Option Headers) : Bool :=
  match getHeaderValueAsString headers "content-type" with
  | some s => strIncludes (strToLower s) "application/json"
  | none => false

/-- `modifyNpmInfoResponse` from `modifyNpmInfo.js`, on the parsed body.  The
source operates on body bytes: a body that is empty or fails `JSON.parse` is
returned unchanged, and a parsed body is re-serialized with `JSON.stringify`
(whose round-trip with `JSON.parse` preserves the association-list value, since
packument keys are not integer-like); the function below is the bytes-to-bytes
transformation expressed on that parsed value.  The headers argument is the
(possibly `undefined`) upstream header object, mutated in place by the source
and therefore returned alongside the body here. -/
def modifyNpmInfoResponse (cutoffMillis : Int) (body : JsValue)
    (headers : Option Headers) : JsValue × Option Headers :=
  if !contentTypeIsJson headers then (body, headers)
  else if !truthyOpt (body.getProp "time") || !truthyOpt (body.getProp "dist-tags")
       || !truthyOpt (body.getProp "versions") then (body, headers)
  else
    match isPackageExemptFromAgeCheck (body.getProp "name") with
    | .error _ => (body, headers)
    | .ok isExempt =>
        let hasLatestTag := truthyOpt (getProp2 body "dist-tags" "latest")
        let versions := packumentTimeVersions body
        let res := npmFilterStage cutoffMillis isExempt versions (body, headers.getD [])
        let bodyJson := res.1
        let bodyJson :=
          if hasLatestTag && !truthyOpt (getProp2 bodyJson "dist-tags" "latest") then
            match calculateLatestTag ((bodyJson.getProp "time").getD .jnull) with
            | some v => bodyJson.updateField "dist-tags" (fun dt => dt.setProp "latest" (.str v))
            | none => bodyJson
          else bodyJson
        (bodyJson, some res.2)

/-- `modifyNpmInfoRequestHeaders` from `modifyNpmInfo.js`: an `accept` header
that mentions the compact packument media type is rewritten to
`application/json`. -/
def modifyNpmInfoRequestHeaders (headers : Headers) : Headers :=
  match getHeaderValueAsString (some headers) "accept" with
  | some a =>
      if strIncludes a "application/vnd.npm.install-v1+json" then
        setHeaderField headers "accept" "application/json"
      else headers
  | none => headers

/-- `isPackageInfoUrl` from `modifyNpmInfo.js`: strip query and fragment;
tarballs (`.tgz`) and the special endpoints whose path contains "slash dash slash" are not packument metadata. -/
def isPackageInfoUrl (url : String) : Bool :=
  let u1 := (strSplitOn url '?').headD url
  let urlWithoutParams := (strSplitOn u1 '#').headD u1
  if strEndsWith urlWithoutParams ".tgz" then false
  else if strIncludes urlWithoutParams "/-/" then false
  else true

/-- A hexadecimal digit character for `\u00XX` escapes. -/
def hexDigitChar (n : Nat) : Char :=
  if n < 10 then Char.ofNat (48 + n) else Char.ofNat (87 + n)

/-- `JSON.stringify` escaping of one string character. -/
def jsonEscapeChar (c : Char) : List Char :=
  if c = '"' then ['\\', '"']
  else if c = '\\' then ['\\', '\\']
  else if c = '\x08' then ['\\', 'b']
  else if c = '\x09' then ['\\', 't']
  else if c = '\x0a' then ['\\', 'n']
  else if c = '\x0c' then ['\\', 'f']
  else if c = '\x0d' then ['\\', 'r']
  else if c.toNat < 32 then
    ['\\', 'u', '0', '0', hexDigitChar (c.toNat / 16), hexDigitChar (c.toNat % 16)]
  else [c]

/-- A `JSON.stringify` string literal. -/
def jsonQuote (s : String) : String :=
  String.mk ('"' :: ((s.data.map jsonEscapeChar).flatten ++ ['"']))

mutual
/-- `JSON.stringify` (compact form, no spacing), producing the UTF-8 bytes the
rewriter returns via `Buffer.from`. -/
def serializeJson : JsValue → String
  | .str s => jsonQuote s
  | .num n => toString n
  | .jbool b => if b then "true" else "false"
  | .jnull => "null"
  | .obj fields => "\x7b" ++ serializeFields fields ++ "\x7d"
  | .arr elems => "[" ++ serializeElems elems ++ "]"

/-- Comma-separated serialized object fields. -/
def serializeFields : List (String × JsValue) → String
  | [] => ""
  | [(k, v)] => jsonQuote k ++ ":" ++ serializeJson v
  | (k, v) :: rest => jsonQuote k ++ ":" ++ serializeJson v ++ "," ++ serializeFields rest

/-- Comma-separated serialized array elements. -/
def serializeElems : List JsValue → String
  | [] => ""
  | [v] => serializeJson v
  | v :: rest => serializeJson v ++ "," ++ serializeElems rest
end

/-- What the MITM forward path sends back to the client. -/
structure ClientResponse where
  statusCode : Nat
  headers : Headers
  body : JsValue

/-- The buffered-and-rewritten response path of `createProxyRequest`
(`mitmRequestHandler.js`): the upstream body is buffered (gunzipped and
re-gzipped around the modification when `content-encoding: gzip`, a
byte-transparent detour), `modifyBody(buffer, headers)` runs with the upstream
header object, whose in-place mutations are visible to the final
`res.writeHead(statusCode, headers)`. -/
def writeModifiedNpmResponse (cutoffMillis : Int) (statusCode : Nat)
    (upstreamHeaders : Headers) (body : JsValue) : ClientResponse :=
  let r := modifyNpmInfoResponse cutoffMillis body (some upstreamHeaders)
  ⟨statusCode, r.2.getD upstreamHeaders, r.1⟩

/-- The synthetic block response set by `blockMalware`. -/
structure BlockResponse where
  statusCode : Nat
  message : String
deriving DecidableEq

/-- The payload object of an emitted event: an object literal whose values may
be `undefined` (`none`). -/
abbrev JsEventPayload := List (String × Option JsValue)

/-- Field access on an event payload object (`event.url` and friends): a
missing property and a property holding `undefined` both read as `undefined`. -/
def jsEventGet : JsEventPayload → String → Option JsValue
  | [], _ => none
  | (k, v) :: rest, key => if k = key then v else jsEventGet rest key

/-- The per-request interception context of `interceptorBuilder.js`
(`createRequestContext`): the mutable builder state accumulated by the setup
chain.  `β` is the body representation handed to body modifiers (`Buffer` in
the source).  A body-modifier also receives the response header object, which
it may mutate, so its pure form returns the headers as well.  `emittedEvents`
records the `(event name, payload)` pairs emitted on the interceptor's
`EventEmitter`. -/
structure RequestContext (β : Type) where
  targetUrl : String
  blockResponse : Option BlockResponse
  reqheaderModificationFuncs : List (Headers → Headers)
  modifyBodyFuncs : List (β → Option Headers → β × Option Headers)
  emittedEvents : List (String × JsEventPayload)

/-- A fresh request context for a target URL. -/
def createRequestContext (β : Type) (targetUrl : String) : RequestContext β :=
  ⟨targetUrl, none, [], [], []⟩

/-- `blockMalwareSetup` from `interceptorBuilder.js`: set the 403 block
response and emit one `malwareBlocked` event carrying the package name, the
version, the target URL, and `Date.now()` under the field name `timestamp`. -/
def blockMalwareSetup (β : Type) (ctx : RequestContext β)
    (packageName version : Option String) (nowMillis : Int) : RequestContext β :=
  { ctx with
    blockResponse := some ⟨403, "Forbidden - blocked by safe-chain"⟩,
    emittedEvents := ctx.emittedEvents ++
      [("malwareBlocked",
        [("packageName", packageName.map JsValue.str),
         ("version", version.map JsValue.str),
         ("targetUrl", some (.str ctx.targetUrl)),
         ("timestamp", some (.num nowMillis))])] }

/-- `modifyRequestHeaders` of the context: push a header modifier. -/
def ctxModifyRequestHeaders (β : Type) (ctx : RequestContext β)
    (f : Headers → Headers) : RequestContext β :=
  { ctx with reqheaderModificationFuncs := ctx.reqheaderModificationFuncs ++ [f] }

/-- `modifyBody` of the context: push a body modifier. -/
def ctxModifyBody (β : Type) (ctx : RequestContext β)
    (f : β → Option Headers → β × Option Headers) : RequestContext β :=
  { ctx with modifyBodyFuncs := ctx.modifyBodyFuncs ++ [f] }

/-- The built handler's `modifyRequestHeaders`: `undefined` headers pass
through; otherwise each registered function runs in registration order over the
shared header object. -/
def handlerModifyRequestHeaders (funcs : List (Headers → Headers))
    (headers : Option Headers) : Option Headers :=
  match headers with
  | some h => some (funcs.foldl (fun acc f => f acc) h)
  | none => none

/-- The built handler's `modifyBody`, exactly as the source loop computes it:
`modifiedBody` starts as `body`, and each iteration runs
`modifiedBody = func(body, headers)` — every registered function is applied to
the ORIGINAL `body` argument (not to the accumulated result), while header
mutations accumulate through the shared header object. -/
def handlerModifyBody (β : Type) (funcs : List (β → Option Headers → β × Option Headers))
    (body : β) (headers : Option Headers) : β × Option Headers :=
  funcs.foldl (fun acc f => f body acc.2) (body, headers)

/-- The immutable `RequestInterceptionHandler` produced by `build()`. -/
structure InterceptionHandler (β : Type) where
  blockResponse : Option BlockResponse
  modifyRequestHeaders : Option Headers → Option Headers
  modifiesResponse : Bool
  modifyBody : β → Option Headers → β × Option Headers

/-- `build()` from `createRequestContext`: capture the accumulated state;
`modifiesResponse()` is `modifyBodyFuncs.length > 0`. -/
def RequestContext.build (β : Type) (ctx : RequestContext β) : InterceptionHandler β :=
  ⟨ctx.blockResponse,
   handlerModifyRequestHeaders ctx.reqheaderModificationFuncs,
   ctx.modifyBodyFuncs.length != 0,
   handlerModifyBody β ctx.modifyBodyFuncs⟩

/-- `settings.js`: the default minimum package age in hours. -/
def defaultMinimumPackageAge : Nat := 24

/-- `getMinimumPackageAgeHours` from `src/config/settings.js` (lines 40-43):
it returns the default unconditionally — the value parsed from the command
line by `cliArguments.getMinimumPackageAgeHours` is never consulted. -/
def Settings.getMinimumPackageAgeHours : Nat := defaultMinimumPackageAge

/-- The rewriter's cutoff (`modifyNpmInfo.js` lines 95-97):
`new Date(new Date().getTime() - getMinimumPackageAgeHours() * 3600 * 1000)`,
i.e. the current epoch milliseconds minus N hours (N·3600 seconds). -/
def npmCutoffMillis (nowMillis : Int) : Int :=
  nowMillis - (Settings.getMinimumPackageAgeHours : Int) * 3600 * 1000

/-- The impure collaborators of the npm interceptor's setup function
(`npmInterceptor.js`): the tarball/packument URL parser (defined in
`parseNpmPackageUrl.js`, consumed here as a black box), the malware oracle,
the `skipMinimumPackageAge()` setting, `Date.now()` at block time, and
`new Date().getTime()` at the later moment the body modifier runs. -/
structure NpmRequestEnv where
  parseNpmPackageUrl : String → Option String × Option String
  isMalwarePackage : Option String → Option String → Bool
  skipMinimumPackageAge : Bool
  nowMillis : Int
  responseNowMillis : Int

/-- The setup chain of `buildNpmInterceptor`
(`packages/safe-chain/.../npmInterceptor.js` lines 32-46), run by
`handleRequest(targetUrl)` on a fresh context: block when the oracle flags the
parsed `(packageName, version)`; for packument-metadata URLs (unless the age
check is skipped) register the accept-header rewrite and the packument body
rewriter. -/
def npmHandleRequest (env : NpmRequestEnv) (targetUrl : String) : RequestContext JsValue :=
  let ctx := createRequestContext JsValue targetUrl
  let parsed := env.parseNpmPackageUrl targetUrl
  let ctx :=
    if env.isMalwarePackage parsed.1 parsed.2 then
      blockMalwareSetup JsValue ctx parsed.1 parsed.2 env.nowMillis
    else ctx
  if !env.skipMinimumPackageAge && isPackageInfoUrl targetUrl then
    ctxModifyBody JsValue
      (ctxModifyRequestHeaders JsValue ctx modifyNpmInfoRequestHeaders)
      (fun b h => modifyNpmInfoResponse (npmCutoffMillis env.responseNowMillis) b h)
  else ctx

/-- One entry of the proxy controller's `blockedRequests` list
(`mitmRequestHandler.js` state).  The fields hold whatever the `handleConnect`
listener read off the event object, so each is a possibly-`undefined` value. -/
structure BlockedRequest where
  packageName : Option JsValue
  version : Option JsValue
  url : Option JsValue

/-- `onMalwareBlocked` (`mitmRequestHandler.js` lines 384-386): push one entry
onto `blockedRequests`. -/
def onMalwareBlocked (blockedRequests : List BlockedRequest)
    (packageName version url : Option JsValue) : List BlockedRequest :=
  blockedRequests ++ [⟨packageName, version, url⟩]

/-- The `malwareBlocked` listener `handleConnect` subscribes
(`mitmRequestHandler.js` lines 366-368): it reads `event.packageName`,
`event.version` and `event.url` off the payload and records them. -/
def handleConnectListener (blockedRequests : List BlockedRequest)
    (event : JsEventPayload) : List BlockedRequest :=
  onMalwareBlocked blockedRequests
    (jsEventGet event "packageName") (jsEventGet event "version") (jsEventGet event "url")

/-- Delivery of the `malwareBlocked` events a request emitted to the
controller's listener, in emission order. -/
def deliverMalwareBlockedEvents (β : Type) (ctx : RequestContext β)
    (blockedRequests : List BlockedRequest) : List BlockedRequest :=
  ((ctx.emittedEvents.filter (fun e => e.1 = "malwareBlocked")).map (fun e => e.2)).foldl
    handleConnectListener blockedRequests

/-- `verifyNoMaliciousPackages` (`mitmRequestHandler.js` lines 388-411): true
iff `blockedRequests` is empty; the false path additionally prints the list. -/
def verifyNoMaliciousPackages (blockedRequests : List BlockedRequest) : Bool :=
  blockedRequests.isEmpty

/-- The audit verdict consumed by `scanCommand` (`auditChanges` result);
`isAllowed` is `disallowedChanges.length === 0`. -/
structure AuditResult where
  isAllowed : Bool

/-- How the pre-scan race of `scanCommand` settled: either the timeout fired
first, or the resolver-plus-audit completed (with `audit` still `undefined`
when the resolver returned no audit before the race ended). -/
inductive ScanOutcome where
  | timedOut
  | completed (audit : Option AuditResult)

/-- `scanCommand` from `scanning/index.js`: unsupported commands scan as 0; a
timeout throws; an absent or allowing audit returns 0; a disallowing audit
prints the malicious changes and returns 1. -/
def scanCommand (shouldScan : Bool) (outcome : ScanOutcome) : Except String Int :=
  if !shouldScan then .ok 0
  else
    match outcome with
    | .timedOut => .error "Timeout exceeded while scanning npm install command."
    | .completed audit =>
        if (audit.map (fun a => a.isAllowed)).getD true then .ok 0 else .ok 1

/-- The run-specific facts `main` consumes: whether the pre-scan applies and
how it settled, the child's exit status, and the proxy aggregate state when the
child has exited. -/
structure MainEnv where
  shouldScan : Bool
  scanOutcome : ScanOutcome
  childStatus : Int
  blockedRequests : List BlockedRequest
  hasSuppressedVersions : Bool

/-- What a run of `main` produced: the returned exit code, and whether the
child package manager was spawned. -/
structure MainResult where
  exitCode : Int
  childRan : Bool

/-- The tail of `main` after a passing (or skipped) pre-scan
(`main.js` lines 55-90): run the child, then return 1 if
`verifyNoMaliciousPackages` is false, else print the summary and return the
child's exit status. -/
def mainAfterScan (env : MainEnv) : MainResult :=
  if !(verifyNoMaliciousPackages env.blockedRequests) then ⟨1, true⟩
  else ⟨env.childStatus, true⟩

/-- `main` from `main.js` (lines 37-99) — named `wrapperMain` here because Lean
reserves `main` for executables.  When the command is supported, run the
pre-scan; a thrown timeout is caught by the surrounding `try`/`catch` and
returns 1 before the child is spawned; a non-zero scan result is returned
directly, likewise before the child is spawned; otherwise the child runs and
the exit code follows `mainAfterScan`. -/
def wrapperMain (env : MainEnv) : MainResult :=
  if env.shouldScan then
    match scanCommand env.shouldScan env.scanOutcome with
    | .error _ => ⟨1, false⟩
    | .ok r => if r != 0 then ⟨r, false⟩ else mainAfterScan env
  else mainAfterScan env

/-- The module state of `cliArguments.js`. -/
structure CliState where
  loggingLevel : String
  skipMinimumPackageAge : Option Bool
  minimumPackageAgeHours : Option String
  includePython : Bool
deriving DecidableEq

/-- `getLastArgEqualsValue` from `cliArguments.js`: scan the arguments from the
end for one whose lowercased form starts with `pre`, and return the raw text of
that argument after the first `pre.length` characters. -/
def getLastArgEqualsValue (args : List String) (pre : String) : Option String :=
  match args.reverse.find? (fun arg => strStartsWith (strToLower arg) pre) with
  | some arg => some (String.mk (arg.data.drop pre.data.length))
  | none => none

/-- `setLoggingLevel`: a falsy (empty) value is ignored; otherwise the level is
stored lowercased. -/
def setLoggingLevel (st : CliState) (args : List String) : CliState :=
  match getLastArgEqualsValue args "--safe-chain-logging=" with
  | some level => if level = "" then st else { st with loggingLevel := strToLower level }
  | none => st

/-- `hasFlagArg`: case-insensitive exact match against any argument. -/
def hasFlagArg (args : List String) (flagName : String) : Bool :=
  args.any (fun arg => strToLower arg = strToLower flagName)

/-- `setSkipMinimumPackageAge`: the flag's presence stores `true`. -/
def setSkipMinimumPackageAge (st : CliState) (args : List String) : CliState :=
  if hasFlagArg args "--safe-chain-skip-minimum-package-age" then
    { st with skipMinimumPackageAge := some true }
  else st

/-- `setMinimumPackageAgeHours`: a truthy (non-empty) value of the last
`--safe-chain-minimum-package-age-hours=` argument is stored verbatim. -/
def setMinimumPackageAgeHours (st : CliState) (args : List String) : CliState :=
  match getLastArgEqualsValue args "--safe-chain-minimum-package-age-hours=" with
  | some value => if value = "" then st else { st with minimumPackageAgeHours := some value }
  | none => st

/-- `setIncludePython`: this flag is matched against all arguments (it does not
carry the wrapper flag marker). -/
def setIncludePython (st : CliState) (args : List String) : CliState :=
  { st with includePython := hasFlagArg args "--include-python" }

/-- `initializeCliArguments` from `cliArguments.js`: reset the state, split the
arguments into wrapper flags (lowercased form starts with `--safe-chain-`) and
the remaining child command, run the setters, and return the remaining
arguments. -/
def initializeCliArguments (args : List String) : CliState × List String :=
  let st : CliState := ⟨"silent", none, none, false⟩
  let safeChainArgs := args.filter (fun a => strStartsWith (strToLower a) "--safe-chain-")
  let remainingArgs := args.filter (fun a => !strStartsWith (strToLower a) "--safe-chain-")
  let st := setLoggingLevel st safeChainArgs
  let st := setSkipMinimumPackageAge st safeChainArgs
  let st := setMinimumPackageAgeHours st safeChainArgs
  let st := setIncludePython st args
  (st, remainingArgs)

/-- `cliArguments.getMinimumPackageAgeHours`: the raw flag value stored by the
parser (never consulted by `settings.getMinimumPackageAgeHours`). -/
def CliState.getMinimumPackageAgeHours (st : CliState) : Option String :=
  st.minimumPackageAgeHours

/-- A hexadecimal digit's value, or `none`. -/
def hexVal (c : Char) : Option Nat :=
  if '0' ≤ c ∧ c ≤ '9' then some (c.toNat - 48)
  else if 'a' ≤ c ∧ c ≤ 'f' then some (c.toNat - 87)
  else if 'A' ≤ c ∧ c ≤ 'F' then some (c.toNat - 70)
  else none

/-- Decode a UTF-8 byte sequence to code points (`none` on a malformed
sequence, where `decodeURIComponent` throws `URIError`). -/
def utf8Decode : List Nat → Option (List Char)
  | [] => some []
  | b :: rest =>
      if b < 128 then
        match utf8Decode rest with
        | some cs => some (Char.ofNat b :: cs)
        | none => none
      else if 192 ≤ b ∧ b < 224 then
        match rest with
        | b2 :: rest2 =>
            if 128 ≤ b2 ∧ b2 < 192 then
              match utf8Decode rest2 with
              | some cs => some (Char.ofNat ((b - 192) * 64 + (b2 - 128)) :: cs)
              | none => none
            else none
        | [] => none
      else if 224 ≤ b ∧ b < 240 then
        match rest with
        | b2 :: b3 :: rest2 =>
            if (128 ≤ b2 ∧ b2 < 192) ∧ (128 ≤ b3 ∧ b3 < 192) then
              match utf8Decode rest2 with
              | some cs =>
                  some (Char.ofNat ((b - 224) * 4096 + (b2 - 128) * 64 + (b3 - 128)) :: cs)
              | none => none
            else none
        | _ => none
      else if 240 ≤ b ∧ b < 248 then
        match rest with
        | b2 :: b3 :: b4 :: rest2 =>
            if (128 ≤ b2 ∧ b2 < 192) ∧ (128 ≤ b3 ∧ b3 < 192) ∧ (128 ≤ b4 ∧ b4 < 192) then
              match utf8Decode rest2 with
              | some cs =>
                  some (Char.ofNat
                    ((b - 240) * 262144 + (b2 - 128) * 4096 + (b3 - 128) * 64 + (b4 - 128)) :: cs)
              | none => none
            else none
        | _ => none
      else none

/-- The UTF-8 encoding of one character. -/
def charUtf8 (c : Char) : List Nat :=
  let n := c.toNat
  if n < 128 then [n]
  else if n < 2048 then [192 + n / 64, 128 + n % 64]
  else if n < 65536 then [224 + n / 4096, 128 + (n / 64) % 64, 128 + n % 64]
  else [240 + n / 262144, 128 + (n / 4096) % 64, 128 + (n / 64) % 64, 128 + n % 64]

/-- The byte sequence denoted by a percent-encoded character list: `%XX`
escapes contribute their byte, other characters contribute their UTF-8 bytes
(`none` for a malformed escape, where `decodeURIComponent` throws). -/
def percentBytes : List Char → Option (List Nat)
  | [] => some []
  | '%' :: h1 :: h2 :: rest =>
      match hexVal h1, hexVal h2, percentBytes rest with
      | some a, some b, some bs => some ((a * 16 + b) :: bs)
      | _, _, _ => none
  | '%' :: _ => none
  | c :: rest =>
      match percentBytes rest with
      | some bs => some (charUtf8 c ++ bs)
      | none => none

/-- `decodeURIComponent`: percent escapes decode as UTF-8 byte sequences,
other characters pass through (their UTF-8 encodings are self-delimiting, so
decoding the whole byte sequence at once agrees with the built-in's
run-by-run decoding).  A malformed escape or invalid UTF-8 makes the built-in
throw `URIError`, modelled as `none`. -/
def decodeURIComponent (s : String) : Option String :=
  match percentBytes s.data with
  | some bs =>
      match utf8Decode bs with
      | some cs => some (String.mk cs)
      | none => none
  | none => none

/-- The `pathname` of `new URL(url)` for the `http(s)` URLs the proxy builds:
drop the scheme, drop the host up to the first `/`, `?` or `#`, and cut the
rest at the query or fragment.  Other schemes and empty hosts are URL parse
failures (`new URL` throws), modelled as `none`.  (The constructor's percent
and dot-segment normalizations do not occur in the URLs at hand.) -/
def urlPathname (url : String) : Option String :=
  let afterScheme : Option (List Char) :=
    if strStartsWith url "https://" then some (url.data.drop 8)
    else if strStartsWith url "http://" then some (url.data.drop 7)
    else none
  match afterScheme with
  | none => none
  | some rest =>
      let host := rest.takeWhile (fun c => c ≠ '/' ∧ c ≠ '?' ∧ c ≠ '#')
      if host.isEmpty then none
      else
        let tail := rest.drop host.length
        some (String.mk (tail.takeWhile (fun c => c ≠ '?' ∧ c ≠ '#')))

/-- `urlObj.pathname.split("/").filter(Boolean).pop()` followed by
`decodeURIComponent` (`pipInterceptor.js` lines 63-68): the decoded last
non-empty path segment. -/
def extractDecodedLastSegment (url : String) : Option String :=
  match urlPathname url with
  | none => none
  | some pathname =>
      match ((strSplitOn pathname '/').filter (fun s => s != "")).getLast? with
      | some lastSegment => decodeURIComponent lastSegment
      | none => none

/-- Split a character list at its first `'-'`:
`some (before, after)` when a dash exists. -/
def breakAtFirstDash : List Char → Option (List Char × List Char)
  | [] => none
  | '-' :: rest => some ([], rest)
  | c :: rest =>
      match breakAtFirstDash rest with
      | some (a, b) => some (c :: a, b)
      | none => none

/-- Split a character list at its last `'-'`:
`some (before, after)` when a dash exists. -/
def breakAtLastDash (l : List Char) : Option (List Char × List Char) :=
  match breakAtFirstDash l.reverse with
  | some (a, b) => some (b.reverse, a.reverse)
  | none => none

/-- The wheel branch of `parsePipPackageFromUrl` (`pipInterceptor.js` lines
75-93): strip `.whl`, require `indexOf("-") > 0` (otherwise fall through,
modelled as `none`), take the text before the first dash as `dist` and the text
between the first and second dash (or to the end when there is only one dash)
as the version, and reject a falsy name or version or the literal version
`latest` by returning the parsed-nothing pair. -/
def wheelBranch (filename : String) : Option (Option String × Option String) :=
  let base := filename.data.take (filename.data.length - 4)
  match breakAtFirstDash base with
  | some (dist, rest) =>
      if dist.isEmpty then none
      else
        let rawVersion :=
          match breakAtFirstDash rest with
          | some (v, _) => v
          | none => rest
        let packageName := String.mk dist
        let version := String.mk rawVersion
        if version = "latest" ∨ packageName = "" ∨ version = "" then
          some (none, none)
        else some (some packageName, some version)
  | none => none

/-- The sdist extensions of the source's regex, tested case-insensitively. -/
def sdistExtensions : List String := [".tar.gz", ".zip", ".tar.bz2", ".tar.xz"]

/-- The matched sdist extension at the end of the filename
(`/\.(tar\.gz|zip|tar\.bz2|tar\.xz)$/i`), if any. -/
def sdistExtMatch (filename : String) : Option String :=
  sdistExtensions.find? (fun ext => strEndsWith (strToLower filename) ext)

/-- The sdist branch of `parsePipPackageFromUrl` (`pipInterceptor.js` lines
96-111): strip the matched extension, require the last dash to be neither
leading nor trailing (`lastDash > 0 && lastDash < base.length - 1`, otherwise
fall through), split there into name and version, and reject the literal
version `latest`. -/
def sdistBranch (filename : String) (ext : String) : Option (Option String × Option String) :=
  let base := filename.data.take (filename.data.length - ext.data.length)
  match breakAtLastDash base with
  | some (nameChars, versionChars) =>
      if nameChars.isEmpty ∨ versionChars.isEmpty then none
      else
        let packageName := String.mk nameChars
        let version := String.mk versionChars
        if version = "latest" ∨ packageName = "" ∨ version = "" then
          some (none, none)
        else some (some packageName, some version)
  | none => none

/-- `parsePipPackageFromUrl` applied to the decoded filename: the `.whl` test
(case-sensitive `endsWith`) guards the wheel branch; the sdist regex guards the
sdist branch; everything else parses as `(undefined, undefined)`. -/
def parsePipFilename (filename : String) : Option String × Option String :=
  match (if strEndsWith filename ".whl" then wheelBranch filename else none) with
  | some r => r
  | none =>
      match sdistExtMatch filename with
      | some ext =>
          match sdistBranch filename ext with
          | some r => r
          | none => (none, none)
      | none => (none, none)

/-- `parsePipPackageFromUrl` from `pipInterceptor.js` (lines 46-115): extract
and decode the last path segment (a URL that fails to parse yields the
parsed-nothing pair; a `decodeURIComponent` failure, which in the source
escapes as an uncaught `URIError`, is likewise mapped to the parsed-nothing
pair and never reached by the properties below), then parse the filename. -/
def parsePipPackageFromUrl (url : String) : Option String × Option String :=
  match extractDecodedLastSegment url with
  | some filename => parsePipFilename filename
  | none => (none, none)


/-- A concrete packument used to exercise the rewriter: `3.0.0` is younger
than `sampleCutoffMillis`, `1.0.0` and `2.0.0-alpha` are older, `9.9.9` is
listed in `versions` without any `time` entry, and `latest` points at the
too-young `3.0.0`. -/
def samplePackument : JsValue := .obj
  [("name", .str "lodash"),
   ("dist-tags", .obj [("latest", .str "3.0.0"), ("alpha", .str "2.0.0-alpha")]),
   ("versions", .obj
     [("1.0.0", .obj []), ("2.0.0-alpha", .obj []), ("3.0.0", .obj []), ("9.9.9", .obj [])]),
   ("time", .obj
     [("created", .str "2020-01-01T00:00:00.000Z"),
      ("modified", .str "2024-01-10T00:00:00.000Z"),
      ("3.0.0", .str "2024-01-09T00:00:00.000Z"),
      ("1.0.0", .str "2024-01-03T00:00:00.000Z"),
      ("2.0.0-alpha", .str "2024-01-04T00:00:00.000Z")])]

/-- A packument whose base name is on the exemption allow-list, with a version
younger than `sampleCutoffMillis`. -/
def exemptPackument : JsValue := .obj
  [("name", .str "@brightspace-ui/core"),
   ("dist-tags", .obj [("latest", .str "3.0.0")]),
   ("versions", .obj [("3.0.0", .obj [])]),
   ("time", .obj
     [("created", .str "2020-01-01T00:00:00.000Z"),
      ("3.0.0", .str "2024-01-09T00:00:00.000Z")])]

/-- 2024-01-05T00:00:00Z in epoch milliseconds. -/
def sampleCutoffMillis : Int := 1704412800000

/-- Upstream response headers used with the sample packuments. -/
def sampleHeaders : Headers :=
  [("content-type", .single "application/json"), ("etag", .single "W-abc"),
   ("last-modified", .single "Mon, 01 Jan 2024 00:00:00 GMT"),
   ("cache-control", .single "max-age=300")]

/-! ## Theorems -/

/-- C2: the wrapper's exit-code precedence.  If the pre-scan flags disallowed
changes or times out, `main` returns 1 and the child package manager is never
run; if the proxy blocked any malware during the run, `main` returns 1
regardless of the child's status; otherwise `main` returns exactly the child's
exit status. -/
theorem wrapperMain_exit_precedence (env : MainEnv) :
    ((env.shouldScan = true →
      (env.scanOutcome = ScanOutcome.timedOut ∨
        ∃ a, env.scanOutcome = ScanOutcome.completed (some a) ∧ a.isAllowed = false) →
      wrapperMain env = ⟨1, false⟩))
    ∧ ((wrapperMain env).childRan = true → env.blockedRequests ≠ [] →
        (wrapperMain env).exitCode = 1)
    ∧ ((wrapperMain env).childRan = true → env.blockedRequests = [] →
        (wrapperMain env).exitCode = env.childStatus) := by
  obtain ⟨ss, so, cs, br, hsv⟩ := env
  refine ⟨?_, ?_, ?_⟩
  · intro hs hsc
    simp only at hs
    subst hs
    rcases hsc with h | ⟨a, h, hna⟩ <;> simp only at h <;> subst h
    · simp [wrapperMain, scanCommand]
    · simp [wrapperMain, scanCommand, hna]
  · intro hcr hb
    simp only at hb
    have hne : verifyNoMaliciousPackages br = false := by
      simp [verifyNoMaliciousPackages, List.isEmpty_iff, hb]
    cases ss with
    | false => simp [wrapperMain, mainAfterScan, hne]
    | true =>
      cases so with
      | timedOut => simp [wrapperMain, scanCommand] at hcr
      | completed audit =>
        cases audit with
        | none => simp [wrapperMain, scanCommand, mainAfterScan, hne]
        | some a =>
          cases ha : a.isAllowed with
          | true => simp [wrapperMain, scanCommand, mainAfterScan, ha, hne]
          | false => simp [wrapperMain, scanCommand, ha] at hcr
  · intro hcr hb
    simp only at hb
    have hne : verifyNoMaliciousPackages br = true := by
      simp [verifyNoMaliciousPackages, hb]
    cases ss with
    | false => simp [wrapperMain, mainAfterScan, hne]
    | true =>
      cases so with
      | timedOut => simp [wrapperMain, scanCommand] at hcr
      | completed audit =>
        cases audit with
        | none => simp [wrapperMain, scanCommand, mainAfterScan, hne]
        | some a =>
          cases ha : a.isAllowed with
          | true => simp [wrapperMain, scanCommand, mainAfterScan, ha, hne]
          | false => simp [wrapperMain, scanCommand, ha] at hcr

/-- Witness for `wrapperMain_exit_precedence` at concrete runs: a timed-out
pre-scan exits 1 without the child; one blocked request forces exit 1 past a
successful child; a clean run returns the child's status 5. -/
theorem wrapperMain_exit_precedence_witness :
    wrapperMain ⟨true, ScanOutcome.timedOut, 0, [], false⟩ = ⟨1, false⟩
    ∧ (wrapperMain ⟨false, ScanOutcome.completed none, 0,
        [⟨some (.str "evil"), some (.str "1.0.0"), none⟩], false⟩).exitCode = 1
    ∧ (wrapperMain ⟨false, ScanOutcome.completed none, 5, [], false⟩).exitCode = 5 := by
  refine ⟨(wrapperMain_exit_precedence _).1 rfl (Or.inl rfl), ?_, ?_⟩
  · exact (wrapperMain_exit_precedence _).2.1 rfl (List.cons_ne_nil _ _)
  · exact (wrapperMain_exit_precedence _).2.2 rfl rfl

/-- C5 (counterexample): passing `--safe-chain-minimum-package-age-hours=48`
does not override the threshold — the CLI parser stores `"48"` but
`settings.getMinimumPackageAgeHours` still answers 24, so the cutoff stays at
now − 24·3600 s rather than now − 48·3600 s. -/
theorem minimumPackageAge_flag_not_applied :
    ((initializeCliArguments ["--safe-chain-minimum-package-age-hours=48", "install"]).1).getMinimumPackageAgeHours
      = some "48"
    ∧ Settings.getMinimumPackageAgeHours = 24
    ∧ npmCutoffMillis 1704067200000 = 1704067200000 - 24 * 3600 * 1000
    ∧ npmCutoffMillis 1704067200000 ≠ 1704067200000 - 48 * 3600 * 1000 := by
  refine ⟨by decide, rfl, rfl, by decide⟩

/-- C5 (amended): the rewriter's cutoff is always the current time minus
24·3600 seconds — the default minimum package age — for every run; the
`--safe-chain-minimum-package-age-hours=<N>` flag is parsed and stored (the
last occurrence wins) but the settings getter that feeds the cutoff ignores
it. -/
theorem npmCutoff_always_default (args : List String) (nowMillis : Int) :
    npmCutoffMillis nowMillis = nowMillis - 24 * 3600 * 1000
    ∧ ((initializeCliArguments (args ++ ["--safe-chain-minimum-package-age-hours=48"])).1).getMinimumPackageAgeHours
        = some "48" := by
  constructor
  · rfl
  · have hq : strStartsWith (strToLower "--safe-chain-minimum-package-age-hours=48")
        "--safe-chain-" = true := by decide
    unfold initializeCliArguments
    simp only [List.filter_append, List.filter_cons, List.filter_nil, hq]
    unfold setIncludePython setMinimumPackageAgeHours
    unfold getLastArgEqualsValue
    rw [List.reverse_append]
    simp only [List.reverse_cons, List.reverse_nil, List.nil_append, List.cons_append,
      List.find?]
    have hq2 : strStartsWith (strToLower "--safe-chain-minimum-package-age-hours=48")
        "--safe-chain-minimum-package-age-hours=" = true := by decide
    simp only [hq2, List.find?_cons_of_pos, cond_true]
    rfl

/-- C6 (code evaluated at the failing input): with two body modifiers
registered (append `"A"`, then append `"B"`), the built handler's `modifyBody`
returns `"xB"` for body `"x"` — each modifier is applied to the original body,
so the first modifier's output is discarded instead of being fed to the second
(the claimed fold would give `"xAB"`).  `modifiesResponse()` is true exactly
when a body modifier was registered. -/
theorem handlerModifyBody_applies_to_original_body :
    ((RequestContext.build String
        (ctxModifyBody String
          (ctxModifyBody String (createRequestContext String "https://u")
            (fun b h => (b ++ "A", h)))
          (fun b h => (b ++ "B", h)))).modifyBody "x" none).1 = "xB"
    ∧ "xB" ≠ "xAB"
    ∧ (RequestContext.build String (createRequestContext String "https://u")).modifiesResponse
        = false
    ∧ (RequestContext.build String
        (ctxModifyBody String (createRequestContext String "https://u")
          (fun b h => (b ++ "A", h)))).modifiesResponse = true := by
  exact ⟨rfl, by decide, rfl, rfl⟩

/-- C3 (code evaluated at the failing input): blocking the npm tarball
`malicious-package@1.0.0` emits one `malwareBlocked` event that carries the
target URL under the field `targetUrl`, but the controller's listener reads
`event.url`, so the single `blockedRequests` entry records `url = undefined`
instead of the target URL.  `verifyNoMaliciousPackages` is true on the empty
list and false once the entry is recorded. -/
theorem blockedRequest_url_is_undefined :
    (deliverMalwareBlockedEvents JsValue
      (npmHandleRequest
        ⟨fun _ => (some "malicious-package", some "1.0.0"), fun _ _ => true,
         false, 1700000000000, 1700000000000⟩
        "https://registry.npmjs.org/malicious-package/-/malicious-package-1.0.0.tgz")
      [])
      = [⟨some (.str "malicious-package"), some (.str "1.0.0"), none⟩]
    ∧ jsEventGet
        (((npmHandleRequest
          ⟨fun _ => (some "malicious-package", some "1.0.0"), fun _ _ => true,
           false, 1700000000000, 1700000000000⟩
          "https://registry.npmjs.org/malicious-package/-/malicious-package-1.0.0.tgz").emittedEvents.headD
            ("", [])).2) "targetUrl"
        = some (.str "https://registry.npmjs.org/malicious-package/-/malicious-package-1.0.0.tgz")
    ∧ verifyNoMaliciousPackages [] = true
    ∧ verifyNoMaliciousPackages
        [⟨some (.str "malicious-package"), some (.str "1.0.0"), none⟩] = false := by
  exact ⟨rfl, rfl, rfl, rfl⟩

/-- C1 (counterexample): for a concrete malware-flagged request, exactly one
`malwareBlocked` event is emitted, but its payload has no `timestampMillis`
field — the millisecond timestamp is carried under the field name `timestamp`
(the payload's fields are exactly `packageName`, `version`, `targetUrl`,
`timestamp`), so the claim's stated field name is wrong. -/
theorem malwareBlocked_has_no_timestampMillis_field :
    ((npmHandleRequest
      ⟨fun _ => (some "evil", some "2.0.0"), fun _ _ => true, false, 1700000000123, 0⟩
      "https://registry.npmjs.org/evil/-/evil-2.0.0.tgz").emittedEvents.map
        (fun e => e.1)) = ["malwareBlocked"]
    ∧ jsEventGet
        (((npmHandleRequest
          ⟨fun _ => (some "evil", some "2.0.0"), fun _ _ => true, false, 1700000000123, 0⟩
          "https://registry.npmjs.org/evil/-/evil-2.0.0.tgz").emittedEvents.headD
            ("", [])).2) "timestampMillis" = none
    ∧ (((npmHandleRequest
        ⟨fun _ => (some "evil", some "2.0.0"), fun _ _ => true, false, 1700000000123, 0⟩
        "https://registry.npmjs.org/evil/-/evil-2.0.0.tgz").emittedEvents.headD
          ("", [])).2).map (fun kv => kv.1)
        = ["packageName", "version", "targetUrl", "timestamp"] := by
  exact ⟨rfl, rfl, rfl⟩

/-- C1 (amended): for every request whose parsed `(packageName, version)` the
oracle reports as malware, `handleRequest` yields a handler whose
`blockResponse` is `{403, "Forbidden - blocked by safe-chain"}`, and exactly
one `malwareBlocked` event is emitted, carrying the package name, the version,
the target URL, and the millisecond timestamp under the field name
`timestamp`. -/
theorem npm_block_contract (env : NpmRequestEnv) (url : String)
    (hmal : env.isMalwarePackage (env.parseNpmPackageUrl url).1
      (env.parseNpmPackageUrl url).2 = true) :
    (RequestContext.build JsValue (npmHandleRequest env url)).blockResponse
      = some ⟨403, "Forbidden - blocked by safe-chain"⟩
    ∧ (npmHandleRequest env url).emittedEvents.filter (fun e => e.1 = "malwareBlocked")
        = [("malwareBlocked",
            [("packageName", (env.parseNpmPackageUrl url).1.map JsValue.str),
             ("version", (env.parseNpmPackageUrl url).2.map JsValue.str),
             ("targetUrl", some (.str url)),
             ("timestamp", some (.num env.nowMillis))])] := by
  simp only [npmHandleRequest, hmal, if_true]
  by_cases hreg : (!env.skipMinimumPackageAge && isPackageInfoUrl url) = true
  · rw [if_pos hreg]
    refine ⟨rfl, ?_⟩
    simp [ctxModifyBody, ctxModifyRequestHeaders, blockMalwareSetup, createRequestContext,
      List.filter]
  · rw [if_neg hreg]
    refine ⟨rfl, ?_⟩
    simp [blockMalwareSetup, createRequestContext, List.filter]

/-- Witness for `npm_block_contract`: the oracle flags the parsed pair of a
concrete tarball URL and the handler blocks with the 403 response while
emitting the single `malwareBlocked` event. -/
theorem npm_block_contract_witness :
    (⟨fun _ => (some "evil", some "2.0.0"), fun _ _ => true, false, 7, 0⟩ :
        NpmRequestEnv).isMalwarePackage
      ((⟨fun _ => (some "evil", some "2.0.0"), fun _ _ => true, false, 7, 0⟩ :
        NpmRequestEnv).parseNpmPackageUrl "https://registry.npmjs.org/evil").1
      ((⟨fun _ => (some "evil", some "2.0.0"), fun _ _ => true, false, 7, 0⟩ :
        NpmRequestEnv).parseNpmPackageUrl "https://registry.npmjs.org/evil").2 = true
    ∧ (RequestContext.build JsValue (npmHandleRequest
        ⟨fun _ => (some "evil", some "2.0.0"), fun _ _ => true, false, 7, 0⟩
        "https://registry.npmjs.org/evil")).blockResponse
        = some ⟨403, "Forbidden - blocked by safe-chain"⟩ := by
  refine ⟨rfl, (npm_block_contract _ _ rfl).1⟩


theorem lookupHeader_deleteHeader_ne (hs : Headers) (n k : String) (h : k ≠ n) :
    lookupHeader (deleteHeader hs n) k = lookupHeader hs k := by
  induction hs with
  | nil => rfl
  | cons kv rest ih =>
      obtain ⟨a, v⟩ := kv
      by_cases ha : a = n
      · subst ha
        simp only [deleteHeader] at ih ⊢
        rw [List.filter_cons_of_neg (by simp)]
        rw [ih, lookupHeader, if_neg (fun hc => h hc.symm)]
      · simp only [deleteHeader] at ih ⊢
        rw [List.filter_cons_of_pos (by simp [ha])]
        by_cases hak : a = k
        · subst hak
          simp [lookupHeader]
        · simp only [lookupHeader, if_neg hak]
          exact ih

theorem lookupHeader_deleteHeader_self (hs : Headers) (n : String) :
    lookupHeader (deleteHeader hs n) n = none := by
  induction hs with
  | nil => rfl
  | cons kv rest ih =>
      obtain ⟨a, v⟩ := kv
      by_cases ha : a = n
      · subst ha
        simp only [deleteHeader] at ih ⊢
        rw [List.filter_cons_of_neg (by simp)]
        exact ih
      · simp only [deleteHeader] at ih ⊢
        rw [List.filter_cons_of_pos (by simp [ha])]
        simp only [lookupHeader, if_neg ha]
        exact ih

theorem contentTypeIsJson_deleteCachingHeaders (h : Headers) :
    contentTypeIsJson (some (deleteCachingHeaders h)) = contentTypeIsJson (some h) := by
  simp only [contentTypeIsJson, getHeaderValueAsString, deleteCachingHeaders]
  rw [lookupHeader_deleteHeader_ne _ _ _ (by decide),
      lookupHeader_deleteHeader_ne _ _ _ (by decide),
      lookupHeader_deleteHeader_ne _ _ _ (by decide)]

theorem deleteCachingHeaders_idem (hs : Headers) :
    deleteCachingHeaders (deleteCachingHeaders hs) = deleteCachingHeaders hs := by
  simp only [deleteCachingHeaders, deleteHeader, List.filter_filter]
  apply List.filter_congr
  intro kv _
  cases h1 : (kv.1 != "etag") <;> cases h2 : (kv.1 != "last-modified") <;>
    cases h3 : (kv.1 != "cache-control") <;> simp [h1, h2, h3]

theorem headerFold_char (c : Int) (ex : Bool) :
    ∀ (l : List (String × JsValue)) (h : Headers),
      l.foldl (fun b e => if !ex && jsDateAfter e.2 c then deleteCachingHeaders b else b) h =
        if l.any (fun e => !ex && jsDateAfter e.2 c) then deleteCachingHeaders h else h := by
  intro l
  induction l with
  | nil => intro h; rfl
  | cons e rest ih =>
      intro h
      rw [List.foldl_cons]
      by_cases he : (!ex && jsDateAfter e.2 c) = true
      · rw [if_pos he, ih (deleteCachingHeaders h)]
        cases hr : rest.any (fun e => !ex && jsDateAfter e.2 c) <;>
          simp [List.any_cons, he, hr, deleteCachingHeaders_idem]
      · rw [if_neg he, ih h]
        simp only [List.any_cons, Bool.or_eq_true]
        cases hr : rest.any (fun e => !ex && jsDateAfter e.2 c) <;>
          simp [he, hr]

theorem jsonFold_eq_filter (c : Int) (ex : Bool) :
    ∀ (l : List (String × JsValue)) (j : JsValue),
      l.foldl (fun a e => if !ex && jsDateAfter e.2 c then deleteVersionFromJson a e.1 else a) j =
        (l.filter (fun e => !ex && jsDateAfter e.2 c)).foldl
          (fun a e => deleteVersionFromJson a e.1) j := by
  intro l
  induction l with
  | nil => intro _; rfl
  | cons e rest ih =>
      intro j
      rw [List.foldl_cons, List.filter_cons]
      by_cases he : (!ex && jsDateAfter e.2 c) = true
      · rw [if_pos he, if_pos he, List.foldl_cons]
        exact ih _
      · rw [if_neg he, if_neg he]
        exact ih _

theorem getProp_updateField_self (j : JsValue) (k : String) (f : JsValue → JsValue) :
    (j.updateField k f).getProp k = (j.getProp k).map f := by
  cases j with
  | obj fields =>
      simp only [JsValue.updateField, JsValue.getProp]
      induction fields with
      | nil => rfl
      | cons kv rest ih =>
          obtain ⟨a, v⟩ := kv
          by_cases hk : a = k
          · subst hk
            rw [List.map_cons, if_pos (show (a, v).1 = a from rfl)]
            simp [lookupField]
          · rw [List.map_cons, if_neg (show ¬((a, v).1 = k) from hk)]
            simp only [lookupField]
            rw [if_neg hk, if_neg hk]
            exact ih
  | str s => rfl
  | num n => rfl
  | jbool b => rfl
  | jnull => rfl
  | arr elems => rfl

theorem getProp_updateField_ne (j : JsValue) (k k' : String) (f : JsValue → JsValue)
    (h : k' ≠ k) : (j.updateField k f).getProp k' = j.getProp k' := by
  cases j with
  | obj fields =>
      simp only [JsValue.updateField, JsValue.getProp]
      induction fields with
      | nil => rfl
      | cons kv rest ih =>
          obtain ⟨a, v⟩ := kv
          by_cases hk : a = k
          · subst hk
            rw [List.map_cons, if_pos (show (a, v).1 = a from rfl)]
            simp only [lookupField]
            rw [if_neg (fun hc : a = k' => h hc.symm), if_neg (fun hc : a = k' => h hc.symm)]
            exact ih
          · rw [List.map_cons, if_neg (show ¬((a, v).1 = k) from hk)]
            simp only [lookupField]
            by_cases hk' : a = k'
            · rw [if_pos hk', if_pos hk']
            · rw [if_neg hk', if_neg hk']
              exact ih
  | str s => rfl
  | num n => rfl
  | jbool b => rfl
  | jnull => rfl
  | arr elems => rfl

theorem getProp_deleteVersion_time (j : JsValue) (v : String) :
    (deleteVersionFromJson j v).getProp "time" =
      (j.getProp "time").map (fun t => t.deleteProp v) := by
  simp only [deleteVersionFromJson]
  rw [getProp_updateField_ne _ _ _ _ (by decide), getProp_updateField_ne _ _ _ _ (by decide),
      getProp_updateField_self]

theorem getProp_deleteVersion_versions (j : JsValue) (v : String) :
    (deleteVersionFromJson j v).getProp "versions" =
      (j.getProp "versions").map (fun t => t.deleteProp v) := by
  simp only [deleteVersionFromJson]
  rw [getProp_updateField_ne _ _ _ _ (by decide), getProp_updateField_self,
      getProp_updateField_ne _ _ _ _ (by decide)]

theorem getProp_deleteVersion_distTags (j : JsValue) (v : String) :
    (deleteVersionFromJson j v).getProp "dist-tags" =
      (j.getProp "dist-tags").map (fun dt =>
        match dt with
        | .obj fields => .obj (fields.filter (fun kv => !(jsLooseEqStr v kv.2)))
        | w => w) := by
  simp only [deleteVersionFromJson]
  rw [getProp_updateField_self, getProp_updateField_ne _ _ _ _ (by decide),
      getProp_updateField_ne _ _ _ _ (by decide)]

theorem getProp_deleteVersion_other (j : JsValue) (v : String) (k : String)
    (h1 : k ≠ "time") (h2 : k ≠ "versions") (h3 : k ≠ "dist-tags") :
    (deleteVersionFromJson j v).getProp k = j.getProp k := by
  simp only [deleteVersionFromJson]
  rw [getProp_updateField_ne _ _ _ _ h3, getProp_updateField_ne _ _ _ _ h2,
      getProp_updateField_ne _ _ _ _ h1]

theorem getProp_delFold_time (l : List (String × JsValue)) :
    ∀ (j : JsValue),
      (l.foldl (fun a e => deleteVersionFromJson a e.1) j).getProp "time" =
        (j.getProp "time").map (fun t => l.foldl (fun t e => t.deleteProp e.1) t) := by
  induction l with
  | nil =>
      intro j
      rw [List.foldl_nil]
      cases hj : j.getProp "time" <;> simp [hj]
  | cons e rest ih =>
      intro j
      rw [List.foldl_cons, ih, getProp_deleteVersion_time]
      cases hj : j.getProp "time" <;> simp [hj]

theorem getProp_delFold_versions (l : List (String × JsValue)) :
    ∀ (j : JsValue),
      (l.foldl (fun a e => deleteVersionFromJson a e.1) j).getProp "versions" =
        (j.getProp "versions").map (fun t => l.foldl (fun t e => t.deleteProp e.1) t) := by
  induction l with
  | nil =>
      intro j
      rw [List.foldl_nil]
      cases hj : j.getProp "versions" <;> simp [hj]
  | cons e rest ih =>
      intro j
      rw [List.foldl_cons, ih, getProp_deleteVersion_versions]
      cases hj : j.getProp "versions" <;> simp [hj]

theorem getProp_delFold_distTags (l : List (String × JsValue)) :
    ∀ (j : JsValue),
      (l.foldl (fun a e => deleteVersionFromJson a e.1) j).getProp "dist-tags" =
        (j.getProp "dist-tags").map (fun dt =>
          l.foldl (fun dt e =>
            match dt with
            | JsValue.obj fields => JsValue.obj (fields.filter (fun kv => !(jsLooseEqStr e.1 kv.2)))
            | w => w) dt) := by
  induction l with
  | nil =>
      intro j
      rw [List.foldl_nil]
      cases hj : j.getProp "dist-tags" <;> simp [hj]
  | cons e rest ih =>
      intro j
      rw [List.foldl_cons, ih, getProp_deleteVersion_distTags]
      cases hj : j.getProp "dist-tags" <;> simp [hj]

theorem getProp_delFold_other (l : List (String × JsValue)) (k : String)
    (h1 : k ≠ "time") (h2 : k ≠ "versions") (h3 : k ≠ "dist-tags") :
    ∀ (j : JsValue),
      (l.foldl (fun a e => deleteVersionFromJson a e.1) j).getProp k = j.getProp k := by
  induction l with
  | nil => intro _; rfl
  | cons e rest ih =>
      intro j
      rw [List.foldl_cons, ih, getProp_deleteVersion_other _ _ _ h1 h2 h3]

theorem foldl_deleteProp_obj (l : List (String × JsValue)) :
    ∀ (tf : List (String × JsValue)),
      l.foldl (fun t e => JsValue.deleteProp t e.1) (.obj tf) =
        .obj (tf.filter (fun kv => !(l.any (fun e => kv.1 == e.1)))) := by
  induction l with
  | nil =>
      intro tf
      simp [List.filter_eq_self]
  | cons e rest ih =>
      intro tf
      rw [List.foldl_cons,
        show JsValue.deleteProp (JsValue.obj tf) e.1
          = JsValue.obj (tf.filter (fun kv => kv.1 != e.1)) from rfl,
        ih, List.filter_filter]
      congr 1
      apply List.filter_congr
      intro kv _
      simp only [List.any_cons, Bool.not_or]
      cases h1 : (kv.1 == e.1) <;> cases h2 : rest.any (fun e => kv.1 == e.1) <;>
        simp_all

theorem foldl_filterTags_obj (l : List (String × JsValue)) :
    ∀ (df : List (String × JsValue)),
      l.foldl (fun dt e =>
          match dt with
          | JsValue.obj fields => JsValue.obj (fields.filter (fun kv => !(jsLooseEqStr e.1 kv.2)))
          | w => w) (.obj df) =
        .obj (df.filter (fun kv => !(l.any (fun e => jsLooseEqStr e.1 kv.2)))) := by
  induction l with
  | nil =>
      intro df
      simp [List.filter_eq_self]
  | cons e rest ih =>
      intro df
      rw [List.foldl_cons,
        show (match JsValue.obj df with
          | JsValue.obj fields => JsValue.obj (fields.filter (fun kv => !(jsLooseEqStr e.1 kv.2)))
          | w => w)
          = JsValue.obj (df.filter (fun kv => !(jsLooseEqStr e.1 kv.2))) from rfl,
        ih, List.filter_filter]
      congr 1
      apply List.filter_congr
      intro kv _
      simp only [List.any_cons, Bool.not_or]
      cases h1 : jsLooseEqStr e.1 kv.2 <;> cases h2 : rest.any (fun e => jsLooseEqStr e.1 kv.2) <;>
        simp_all

theorem deleteProp_nonobj (t : JsValue) (v : String) (h : t.isObj = false) :
    t.deleteProp v = t := by
  cases t <;> first | rfl | simp [JsValue.isObj] at h

theorem foldl_deleteProp_nonobj (l : List (String × JsValue)) (t : JsValue)
    (h : t.isObj = false) :
    l.foldl (fun t e => t.deleteProp e.1) t = t := by
  induction l with
  | nil => rfl
  | cons e rest ih =>
      rw [List.foldl_cons, deleteProp_nonobj t e.1 h]
      exact ih

theorem truthy_foldl_deleteProp (l : List (String × JsValue)) (t : JsValue) :
    (l.foldl (fun t e => t.deleteProp e.1) t).truthy = t.truthy := by
  cases ht : t.isObj with
  | true =>
      cases t <;> simp [JsValue.isObj] at ht
      case obj fields => rw [foldl_deleteProp_obj]; rfl
  | false => rw [foldl_deleteProp_nonobj _ _ ht]

theorem foldl_filterTags_nonobj (l : List (String × JsValue)) (t : JsValue)
    (h : t.isObj = false) :
    l.foldl (fun dt e =>
      match dt with
      | JsValue.obj fields => JsValue.obj (fields.filter (fun kv => !(jsLooseEqStr e.1 kv.2)))
      | w => w) t = t := by
  induction l with
  | nil => rfl
  | cons e rest ih =>
      rw [List.foldl_cons]
      cases t with
      | obj fields => simp [JsValue.isObj] at h
      | str s => exact ih
      | num n => exact ih
      | jbool b => exact ih
      | jnull => exact ih
      | arr elems => exact ih

theorem truthy_foldl_filterTags (l : List (String × JsValue)) (t : JsValue) :
    (l.foldl (fun dt e =>
      match dt with
      | JsValue.obj fields => JsValue.obj (fields.filter (fun kv => !(jsLooseEqStr e.1 kv.2)))
      | w => w) t).truthy = t.truthy := by
  cases ht : t.isObj with
  | true =>
      cases t <;> simp [JsValue.isObj] at ht
      case obj fields => rw [foldl_filterTags_obj]; rfl
  | false => rw [foldl_filterTags_nonobj _ _ ht]

theorem npmFilterStage_no_trigger (c : Int) (ex : Bool) :
    ∀ (l : List (String × JsValue)) (acc : JsValue × Headers),
      (∀ e ∈ l, (!ex && jsDateAfter e.2 c) = false) →
      npmFilterStage c ex l acc = acc := by
  intro l
  induction l with
  | nil => intro acc _; rfl
  | cons e rest ih =>
      intro acc h
      have he := h e (List.mem_cons_self e rest)
      simp only [npmFilterStage, List.foldl_cons] at ih ⊢
      rw [show npmFilterStep c ex acc e = acc from by simp [npmFilterStep, he]]
      exact ih acc (fun e' he' => h e' (List.mem_cons_of_mem _ he'))

theorem modifyNpmInfoResponse_main (c : Int) (body : JsValue) (h : Headers)
    (hct : contentTypeIsJson (some h) = true)
    (htT : truthyOpt (body.getProp "time") = true)
    (htD : truthyOpt (body.getProp "dist-tags") = true)
    (htV : truthyOpt (body.getProp "versions") = true)
    (ex : Bool) (hex : isPackageExemptFromAgeCheck (body.getProp "name") = Except.ok ex) :
    modifyNpmInfoResponse c body (some h) =
      ((if truthyOpt (getProp2 body "dist-tags" "latest")
            && !truthyOpt (getProp2 (npmFilterStage c ex (packumentTimeVersions body) (body, h)).1
                  "dist-tags" "latest") then
          match calculateLatestTag
              (((npmFilterStage c ex (packumentTimeVersions body) (body, h)).1.getProp
                "time").getD .jnull) with
          | some v =>
              (npmFilterStage c ex (packumentTimeVersions body) (body, h)).1.updateField
                "dist-tags" (fun dt => dt.setProp "latest" (.str v))
          | none => (npmFilterStage c ex (packumentTimeVersions body) (body, h)).1
        else (npmFilterStage c ex (packumentTimeVersions body) (body, h)).1),
       some (npmFilterStage c ex (packumentTimeVersions body) (body, h)).2) := by
  unfold modifyNpmInfoResponse
  rw [if_neg (by simp [hct]), if_neg (by simp [htT, htD, htV]), hex]
  rfl

theorem npmFilterStage_split (c : Int) (ex : Bool) :
    ∀ (l : List (String × JsValue)) (j : JsValue) (h : Headers),
      npmFilterStage c ex l (j, h) =
        (l.foldl (fun a e => if !ex && jsDateAfter e.2 c then deleteVersionFromJson a e.1 else a) j,
         l.foldl (fun b e => if !ex && jsDateAfter e.2 c then deleteCachingHeaders b else b) h) := by
  intro l
  induction l with
  | nil => intro j h; rfl
  | cons e rest ih =>
      intro j h
      simp only [npmFilterStage, List.foldl_cons] at ih ⊢
      by_cases he : (!ex && jsDateAfter e.2 c) = true
      · simp only [npmFilterStep, he, if_true]
        exact ih _ _
      · simp only [npmFilterStep, he, if_false]
        exact ih _ _

theorem npmFilterStage_snd (c : Int) (ex : Bool) (l : List (String × JsValue))
    (j : JsValue) (h : Headers) :
    (npmFilterStage c ex l (j, h)).2 =
      if l.any (fun e => !ex && jsDateAfter e.2 c) then deleteCachingHeaders h else h := by
  rw [npmFilterStage_split]
  exact headerFold_char c ex l h

theorem npmFilterStage_fst (c : Int) (ex : Bool) (l : List (String × JsValue))
    (j : JsValue) (h : Headers) :
    (npmFilterStage c ex l (j, h)).1 =
      (l.filter (fun e => !ex && jsDateAfter e.2 c)).foldl
        (fun a e => deleteVersionFromJson a e.1) j := by
  rw [npmFilterStage_split]
  exact jsonFold_eq_filter c ex l j

theorem modifyNpmInfoResponse_early (c : Int) (body : JsValue) (headers : Option Headers)
    (hcase : contentTypeIsJson headers = false ∨
      (¬(truthyOpt (body.getProp "time") = true ∧ truthyOpt (body.getProp "dist-tags") = true
          ∧ truthyOpt (body.getProp "versions") = true)) ∨
      (∃ u, isPackageExemptFromAgeCheck (body.getProp "name") = Except.error u)) :
    modifyNpmInfoResponse c body headers = (body, headers) := by
  by_cases hct : contentTypeIsJson headers = true
  · by_cases hsh : truthyOpt (body.getProp "time") = true
        ∧ truthyOpt (body.getProp "dist-tags") = true
        ∧ truthyOpt (body.getProp "versions") = true
    · obtain ⟨h1, h2, h3⟩ := hsh
      rcases hcase with hc | hc | ⟨u, hc⟩
      · rw [hct] at hc
        exact absurd hc (by simp)
      · exact absurd ⟨h1, h2, h3⟩ hc
      · unfold modifyNpmInfoResponse
        rw [if_neg (by simp [hct]), if_neg (by simp [h1, h2, h3]), hc]
    · unfold modifyNpmInfoResponse
      rw [if_neg (by simp [hct]), if_pos]
      cases ha : truthyOpt (body.getProp "time") <;>
        cases hb : truthyOpt (body.getProp "dist-tags") <;>
          cases hcc : truthyOpt (body.getProp "versions") <;> simp_all
  · unfold modifyNpmInfoResponse
    rw [if_pos (by simp [Bool.not_eq_true] at hct; simp [hct])]

theorem lookup_deleteCachingHeaders (h : Headers) :
    lookupHeader (deleteCachingHeaders h) "etag" = none
    ∧ lookupHeader (deleteCachingHeaders h) "last-modified" = none
    ∧ lookupHeader (deleteCachingHeaders h) "cache-control" = none := by
  refine ⟨?_, ?_, ?_⟩ <;> simp only [deleteCachingHeaders]
  · rw [lookupHeader_deleteHeader_ne _ _ _ (by decide),
        lookupHeader_deleteHeader_ne _ _ _ (by decide), lookupHeader_deleteHeader_self]
  · rw [lookupHeader_deleteHeader_ne _ _ _ (by decide), lookupHeader_deleteHeader_self]
  · rw [lookupHeader_deleteHeader_self]

/-- C7: if the rewriter removes at least one version, the `etag`,
`last-modified` and `cache-control` headers are absent from the header mapping
sent to the client; if no version is removed the headers are exactly the
upstream ones — in particular for a packument whose base name is in the
exemption allow-list, regardless of how young its versions are. -/
theorem npm_caching_headers (c : Int) (sc : Nat) (h : Headers) (body : JsValue) :
    (∀ ex : Bool, isPackageExemptFromAgeCheck (body.getProp "name") = Except.ok ex →
      contentTypeIsJson (some h) = true →
      truthyOpt (body.getProp "time") = true →
      truthyOpt (body.getProp "dist-tags") = true →
      truthyOpt (body.getProp "versions") = true →
      (∃ e ∈ packumentTimeVersions body, (!ex && jsDateAfter e.2 c) = true) →
        lookupHeader (writeModifiedNpmResponse c sc h body).headers "etag" = none
        ∧ lookupHeader (writeModifiedNpmResponse c sc h body).headers "last-modified" = none
        ∧ lookupHeader (writeModifiedNpmResponse c sc h body).headers "cache-control" = none)
    ∧ (∀ ex : Bool, isPackageExemptFromAgeCheck (body.getProp "name") = Except.ok ex →
        (∀ e ∈ packumentTimeVersions body, (!ex && jsDateAfter e.2 c) = false) →
        (writeModifiedNpmResponse c sc h body).headers = h)
    ∧ (isPackageExemptFromAgeCheck (body.getProp "name") = Except.ok true →
        (writeModifiedNpmResponse c sc h body).headers = h) := by
  have key : ∀ ex : Bool, isPackageExemptFromAgeCheck (body.getProp "name") = Except.ok ex →
      (∀ e ∈ packumentTimeVersions body, (!ex && jsDateAfter e.2 c) = false) →
      (writeModifiedNpmResponse c sc h body).headers = h := by
    intro ex hex hall
    have hstage := npmFilterStage_no_trigger c ex (packumentTimeVersions body) (body, h) hall
    unfold writeModifiedNpmResponse
    by_cases hct : contentTypeIsJson (some h) = true
    · by_cases hsh : truthyOpt (body.getProp "time") = true
          ∧ truthyOpt (body.getProp "dist-tags") = true
          ∧ truthyOpt (body.getProp "versions") = true
      · obtain ⟨h1, h2, h3⟩ := hsh
        rw [modifyNpmInfoResponse_main c body h hct h1 h2 h3 ex hex]
        simp only [hstage, Option.getD_some]
      · rw [modifyNpmInfoResponse_early _ _ _ (Or.inr (Or.inl hsh))]
        rfl
    · rw [modifyNpmInfoResponse_early _ _ _
        (Or.inl (by revert hct; cases contentTypeIsJson (some h) <;> simp))]
      rfl
  refine ⟨?_, key, fun hex => key true hex (fun e he => by simp)⟩
  intro ex hex hct h1 h2 h3 htrig
  obtain ⟨e, he, hpe⟩ := htrig
  have hany : (packumentTimeVersions body).any (fun e => !ex && jsDateAfter e.2 c) = true := by
    simp only [List.any_eq_true]
    exact ⟨e, he, hpe⟩
  unfold writeModifiedNpmResponse
  rw [modifyNpmInfoResponse_main c body h hct h1 h2 h3 ex hex]
  simp only [Option.getD_some]
  rw [npmFilterStage_snd, if_pos hany]
  exact lookup_deleteCachingHeaders h

/-- Witness for `npm_caching_headers`: on `samplePackument` (whose `3.0.0` is
younger than the cutoff) the caching headers are gone from the client
response; on the allow-listed `exemptPackument` the upstream headers are
returned untouched. -/
theorem npm_caching_headers_witness :
    isPackageExemptFromAgeCheck (samplePackument.getProp "name") = Except.ok false
    ∧ lookupHeader (writeModifiedNpmResponse sampleCutoffMillis 200 sampleHeaders
        samplePackument).headers "etag" = none
    ∧ isPackageExemptFromAgeCheck (exemptPackument.getProp "name") = Except.ok true
    ∧ (writeModifiedNpmResponse sampleCutoffMillis 200 sampleHeaders
        exemptPackument).headers = sampleHeaders := by
  refine ⟨rfl, ?_, rfl, ?_⟩
  · exact ((npm_caching_headers sampleCutoffMillis 200 sampleHeaders samplePackument).1
      false rfl rfl rfl rfl rfl
      ⟨("3.0.0", .str "2024-01-09T00:00:00.000Z"), List.mem_cons_self _ _, by decide⟩).1
  · exact (npm_caching_headers sampleCutoffMillis 200 sampleHeaders exemptPackument).2.2 rfl

theorem lookupField_nodup_mem (l : List (String × JsValue)) (k : String) (v : JsValue)
    (hnd : (l.map Prod.fst).Nodup) (hm : (k, v) ∈ l) : lookupField l k = some v := by
  induction l with
  | nil => cases hm
  | cons kv rest ih =>
      obtain ⟨a, w⟩ := kv
      rw [List.map_cons] at hnd
      rcases List.mem_cons.mp hm with heq | hmem
      · cases heq
        simp [lookupField]
      · have ha : a ≠ k := by
          intro hak
          subst hak
          exact (List.nodup_cons.mp hnd).1
            (by simpa using List.mem_map_of_mem Prod.fst hmem)
        simp only [lookupField, if_neg ha]
        exact ih (List.nodup_cons.mp hnd).2 hmem

theorem setField_mem_of_ne (l : List (String × JsValue)) (key : String) (val : JsValue)
    (kv : String × JsValue) (hm : kv ∈ l) (hne : kv.1 ≠ key) : kv ∈ setField l key val := by
  induction l with
  | nil => cases hm
  | cons e rest ih =>
      obtain ⟨a, w⟩ := e
      rcases List.mem_cons.mp hm with heq | hmem
      · subst heq
        simp only [setField]
        rw [if_neg (by simpa using hne)]
        exact List.mem_cons_self _ _
      · simp only [setField]
        by_cases ha : a = key
        · rw [if_pos ha]
          exact List.mem_cons_of_mem _ hmem
        · rw [if_neg ha]
          exact List.mem_cons_of_mem _ (ih hmem)

theorem modifyNpm_getProp_eq_stage (c : Int) (body : JsValue) (h : Headers)
    (hct : contentTypeIsJson (some h) = true)
    (htT : truthyOpt (body.getProp "time") = true)
    (htD : truthyOpt (body.getProp "dist-tags") = true)
    (htV : truthyOpt (body.getProp "versions") = true)
    (ex : Bool) (hex : isPackageExemptFromAgeCheck (body.getProp "name") = Except.ok ex)
    (k : String) (hk : k ≠ "dist-tags") :
    (modifyNpmInfoResponse c body (some h)).1.getProp k
      = (npmFilterStage c ex (packumentTimeVersions body) (body, h)).1.getProp k := by
  rw [modifyNpmInfoResponse_main c body h hct htT htD htV ex hex]
  by_cases hb : (truthyOpt (getProp2 body "dist-tags" "latest")
      && !truthyOpt (getProp2 (npmFilterStage c ex (packumentTimeVersions body) (body, h)).1
            "dist-tags" "latest")) = true
  · rw [if_pos hb]
    cases hclt : calculateLatestTag
        (((npmFilterStage c ex (packumentTimeVersions body) (body, h)).1.getProp
          "time").getD .jnull) with
    | none => rfl
    | some v =>
        simp only []
        rw [getProp_updateField_ne _ _ _ _ hk]
  · rw [if_neg hb]

theorem packumentTimeVersions_eq (body : JsValue) (tf : List (String × JsValue))
    (htime : body.getProp "time" = some (.obj tf)) :
    packumentTimeVersions body
      = tf.filter (fun x => x.1 != "created" && x.1 != "modified") := by
  simp [packumentTimeVersions, htime, JsValue.entries]

/-- C10: a version listed in `versions` with no `time` entry is never removed;
only versions whose `time` entry is newer than the cutoff are deleted from
`time`, from `versions` and from the dist-tags pointing at them (the first two
conjuncts give the exact surviving field lists; the last two give the
preservation statements for `versions` and `dist-tags`). -/
theorem npm_versions_without_time_preserved (c : Int) (h : Headers) (body : JsValue)
    (tf vf df : List (String × JsValue)) (ex : Bool)
    (hct : contentTypeIsJson (some h) = true)
    (htime : body.getProp "time" = some (.obj tf))
    (hvers : body.getProp "versions" = some (.obj vf))
    (hdist : body.getProp "dist-tags" = some (.obj df))
    (hdnd : (df.map Prod.fst).Nodup)
    (hex : isPackageExemptFromAgeCheck (body.getProp "name") = Except.ok ex) :
    (modifyNpmInfoResponse c body (some h)).1.getProp "versions"
      = some (.obj (vf.filter (fun kv =>
          !(((packumentTimeVersions body).filter (fun e => !ex && jsDateAfter e.2 c)).any
            (fun e => kv.1 == e.1)))))
    ∧ (modifyNpmInfoResponse c body (some h)).1.getProp "time"
      = some (.obj (tf.filter (fun kv =>
          !(((packumentTimeVersions body).filter (fun e => !ex && jsDateAfter e.2 c)).any
            (fun e => kv.1 == e.1)))))
    ∧ (∀ kv ∈ vf, (∀ w, (kv.1, w) ∉ tf) →
        kv ∈ JsValue.entries
          (((modifyNpmInfoResponse c body (some h)).1.getProp "versions").getD .jnull))
    ∧ (∀ kv ∈ df,
        (∀ e ∈ (packumentTimeVersions body).filter (fun e => !ex && jsDateAfter e.2 c),
          jsLooseEqStr e.1 kv.2 = false) →
        kv ∈ JsValue.entries
          (((modifyNpmInfoResponse c body (some h)).1.getProp "dist-tags").getD .jnull)) := by
  have htT : truthyOpt (body.getProp "time") = true := by rw [htime]; rfl
  have htV : truthyOpt (body.getProp "versions") = true := by rw [hvers]; rfl
  have htD : truthyOpt (body.getProp "dist-tags") = true := by rw [hdist]; rfl
  have hV : (modifyNpmInfoResponse c body (some h)).1.getProp "versions"
      = some (.obj (vf.filter (fun kv =>
          !(((packumentTimeVersions body).filter (fun e => !ex && jsDateAfter e.2 c)).any
            (fun e => kv.1 == e.1))))) := by
    rw [modifyNpm_getProp_eq_stage c body h hct htT htD htV ex hex "versions" (by decide),
        npmFilterStage_fst, getProp_delFold_versions, hvers]
    simp only [Option.map_some']
    rw [foldl_deleteProp_obj]
  have hT : (modifyNpmInfoResponse c body (some h)).1.getProp "time"
      = some (.obj (tf.filter (fun kv =>
          !(((packumentTimeVersions body).filter (fun e => !ex && jsDateAfter e.2 c)).any
            (fun e => kv.1 == e.1))))) := by
    rw [modifyNpm_getProp_eq_stage c body h hct htT htD htV ex hex "time" (by decide),
        npmFilterStage_fst, getProp_delFold_time, htime]
    simp only [Option.map_some']
    rw [foldl_deleteProp_obj]
  have hstD : (npmFilterStage c ex (packumentTimeVersions body) (body, h)).1.getProp "dist-tags"
      = some (.obj (df.filter (fun kv =>
          !(((packumentTimeVersions body).filter (fun e => !ex && jsDateAfter e.2 c)).any
            (fun e => jsLooseEqStr e.1 kv.2))))) := by
    rw [npmFilterStage_fst, getProp_delFold_distTags, hdist]
    simp only [Option.map_some']
    rw [foldl_filterTags_obj]
  refine ⟨hV, hT, ?_, ?_⟩
  · intro kv hkv hnt
    rw [hV]
    simp only [Option.getD_some, JsValue.entries]
    apply List.mem_filter.mpr
    refine ⟨hkv, ?_⟩
    cases hany : (((packumentTimeVersions body).filter
        (fun e => !ex && jsDateAfter e.2 c)).any (fun e => kv.1 == e.1)) with
    | false => rfl
    | true =>
        exfalso
        obtain ⟨e, he, hbe⟩ := List.any_eq_true.mp hany
        have he2 : e ∈ tf := by
          have hmem := (List.mem_filter.mp he).1
          rw [packumentTimeVersions_eq body tf htime] at hmem
          exact (List.mem_filter.mp hmem).1
        have hk1 : kv.1 = e.1 := by simpa using hbe
        apply hnt e.2
        rw [hk1, Prod.mk.eta]
        exact he2
  · intro kv hkv hnp
    have hmemF : kv ∈ df.filter (fun kv =>
        !(((packumentTimeVersions body).filter (fun e => !ex && jsDateAfter e.2 c)).any
          (fun e => jsLooseEqStr e.1 kv.2))) := by
      apply List.mem_filter.mpr
      refine ⟨hkv, ?_⟩
      cases hany : (((packumentTimeVersions body).filter
          (fun e => !ex && jsDateAfter e.2 c)).any (fun e => jsLooseEqStr e.1 kv.2)) with
      | false => rfl
      | true =>
          exfalso
          obtain ⟨e, he, hbe⟩ := List.any_eq_true.mp hany
          rw [hnp e he] at hbe
          cases hbe
    rw [modifyNpmInfoResponse_main c body h hct htT htD htV ex hex]
    by_cases hb : (truthyOpt (getProp2 body "dist-tags" "latest")
        && !truthyOpt (getProp2 (npmFilterStage c ex (packumentTimeVersions body) (body, h)).1
              "dist-tags" "latest")) = true
    · rw [if_pos hb]
      cases hclt : calculateLatestTag
          (((npmFilterStage c ex (packumentTimeVersions body) (body, h)).1.getProp
            "time").getD .jnull) with
      | none =>
          simp only []
          rw [hstD]
          simp only [Option.getD_some, JsValue.entries]
          exact hmemF
      | some v =>
          simp only []
          rw [getProp_updateField_self, hstD]
          simp only [Option.map_some', Option.getD_some]
          have hnodupF : ((df.filter (fun kv =>
              !(((packumentTimeVersions body).filter (fun e => !ex && jsDateAfter e.2 c)).any
                (fun e => jsLooseEqStr e.1 kv.2)))).map Prod.fst).Nodup :=
            ((List.filter_sublist _).map Prod.fst).nodup hdnd
          by_cases hlat : kv.1 = "latest"
          · exfalso
            obtain ⟨hb1, hb2⟩ := (Bool.and_eq_true _ _).mp hb
            have hlook1 : getProp2 body "dist-tags" "latest" = some kv.2 := by
              unfold getProp2
              rw [hdist]
              show lookupField df "latest" = some kv.2
              apply lookupField_nodup_mem df "latest" kv.2 hdnd
              rw [← hlat, Prod.mk.eta]
              exact hkv
            have hlook2 : getProp2 (npmFilterStage c ex (packumentTimeVersions body) (body, h)).1
                "dist-tags" "latest" = some kv.2 := by
              unfold getProp2
              rw [hstD]
              show lookupField _ "latest" = some kv.2
              apply lookupField_nodup_mem _ "latest" kv.2 hnodupF
              rw [← hlat, Prod.mk.eta]
              exact hmemF
            rw [hlook1] at hb1
            rw [hlook2] at hb2
            simp only [truthyOpt, Bool.not_eq_true'] at hb1 hb2
            rw [hb2] at hb1
            cases hb1
          · simp only [JsValue.setProp, JsValue.entries]
            exact setField_mem_of_ne _ "latest" (JsValue.str v) kv hmemF hlat
    · rw [if_neg hb]
      rw [hstD]
      simp only [Option.getD_some, JsValue.entries]
      exact hmemF

/-- Witness for `npm_versions_without_time_preserved`: `9.9.9`, listed in
`samplePackument.versions` with no `time` entry, survives the rewrite even
though other versions are removed. -/
theorem npm_versions_without_time_preserved_witness :
    ("9.9.9", JsValue.obj []) ∈ JsValue.entries
      (((modifyNpmInfoResponse sampleCutoffMillis samplePackument
        (some sampleHeaders)).1.getProp "versions").getD .jnull) := by
  have hm : (("9.9.9", JsValue.obj []) : String × JsValue) ∈
      ([("1.0.0", JsValue.obj []), ("2.0.0-alpha", JsValue.obj []),
        ("3.0.0", JsValue.obj []), ("9.9.9", JsValue.obj [])] : List (String × JsValue)) := by
    exact List.mem_cons_of_mem _ (List.mem_cons_of_mem _ (List.mem_cons_of_mem _
      (List.mem_cons_self _ _)))
  refine (npm_versions_without_time_preserved sampleCutoffMillis sampleHeaders samplePackument
    [("created", .str "2020-01-01T00:00:00.000Z"),
     ("modified", .str "2024-01-10T00:00:00.000Z"),
     ("3.0.0", .str "2024-01-09T00:00:00.000Z"),
     ("1.0.0", .str "2024-01-03T00:00:00.000Z"),
     ("2.0.0-alpha", .str "2024-01-04T00:00:00.000Z")]
    [("1.0.0", JsValue.obj []), ("2.0.0-alpha", JsValue.obj []),
     ("3.0.0", JsValue.obj []), ("9.9.9", JsValue.obj [])]
    [("latest", .str "3.0.0"), ("alpha", .str "2.0.0-alpha")]
    false rfl rfl rfl rfl (by decide) rfl).2.2.1 _ hm ?_
  intro w hw
  simp at hw

theorem truthy_setProp (dt : JsValue) (k : String) (v : JsValue) :
    (dt.setProp k v).truthy = dt.truthy := by
  cases dt <;> rfl

theorem entries_nonobj (t : JsValue) (h : t.isObj = false) : JsValue.entries t = [] := by
  cases t <;> first | rfl | simp [JsValue.isObj] at h

theorem stage_truthy_time (c : Int) (ex : Bool) (l : List (String × JsValue))
    (body : JsValue) (h : Headers) :
    truthyOpt ((npmFilterStage c ex l (body, h)).1.getProp "time")
      = truthyOpt (body.getProp "time") := by
  rw [npmFilterStage_fst, getProp_delFold_time]
  cases hb : body.getProp "time" with
  | none => rfl
  | some t => simp [truthyOpt, truthy_foldl_deleteProp]

theorem stage_truthy_versions (c : Int) (ex : Bool) (l : List (String × JsValue))
    (body : JsValue) (h : Headers) :
    truthyOpt ((npmFilterStage c ex l (body, h)).1.getProp "versions")
      = truthyOpt (body.getProp "versions") := by
  rw [npmFilterStage_fst, getProp_delFold_versions]
  cases hb : body.getProp "versions" with
  | none => rfl
  | some t => simp [truthyOpt, truthy_foldl_deleteProp]

theorem stage_truthy_distTags (c : Int) (ex : Bool) (l : List (String × JsValue))
    (body : JsValue) (h : Headers) :
    truthyOpt ((npmFilterStage c ex l (body, h)).1.getProp "dist-tags")
      = truthyOpt (body.getProp "dist-tags") := by
  rw [npmFilterStage_fst, getProp_delFold_distTags]
  cases hb : body.getProp "dist-tags" with
  | none => rfl
  | some t => simp [truthyOpt, truthy_foldl_filterTags]

theorem stage_getProp_name (c : Int) (ex : Bool) (l : List (String × JsValue))
    (body : JsValue) (h : Headers) :
    (npmFilterStage c ex l (body, h)).1.getProp "name" = body.getProp "name" := by
  rw [npmFilterStage_fst]
  exact getProp_delFold_other _ "name" (by decide) (by decide) (by decide) body

theorem stage_contentType (c : Int) (ex : Bool) (l : List (String × JsValue))
    (body : JsValue) (h : Headers) :
    contentTypeIsJson (some (npmFilterStage c ex l (body, h)).2)
      = contentTypeIsJson (some h) := by
  rw [npmFilterStage_snd]
  by_cases hy : l.any (fun e => !ex && jsDateAfter e.2 c) = true
  · rw [if_pos hy, contentTypeIsJson_deleteCachingHeaders]
  · rw [if_neg hy]

theorem modifyNpm_snd (c : Int) (body : JsValue) (h : Headers)
    (hct : contentTypeIsJson (some h) = true)
    (htT : truthyOpt (body.getProp "time") = true)
    (htD : truthyOpt (body.getProp "dist-tags") = true)
    (htV : truthyOpt (body.getProp "versions") = true)
    (ex : Bool) (hex : isPackageExemptFromAgeCheck (body.getProp "name") = Except.ok ex) :
    (modifyNpmInfoResponse c body (some h)).2
      = some (npmFilterStage c ex (packumentTimeVersions body) (body, h)).2 := by
  rw [modifyNpmInfoResponse_main c body h hct htT htD htV ex hex]

theorem out_no_trigger (c : Int) (body : JsValue) (h : Headers)
    (hct : contentTypeIsJson (some h) = true)
    (htT : truthyOpt (body.getProp "time") = true)
    (htD : truthyOpt (body.getProp "dist-tags") = true)
    (htV : truthyOpt (body.getProp "versions") = true)
    (ex : Bool) (hex : isPackageExemptFromAgeCheck (body.getProp "name") = Except.ok ex) :
    ∀ e ∈ packumentTimeVersions (modifyNpmInfoResponse c body (some h)).1,
      (!ex && jsDateAfter e.2 c) = false := by
  intro e he
  obtain ⟨t, ht⟩ : ∃ t, body.getProp "time" = some t := by
    cases hb : body.getProp "time" with
    | none => rw [hb] at htT; cases htT
    | some t => exact ⟨t, rfl⟩
  have hOtime : (modifyNpmInfoResponse c body (some h)).1.getProp "time"
      = some (((packumentTimeVersions body).filter (fun e => !ex && jsDateAfter e.2 c)).foldl
          (fun t e => t.deleteProp e.1) t) := by
    rw [modifyNpm_getProp_eq_stage c body h hct htT htD htV ex hex "time" (by decide),
        npmFilterStage_fst, getProp_delFold_time, ht]
    simp only [Option.map_some']
  cases hobj : t.isObj with
  | false =>
      rw [foldl_deleteProp_nonobj _ _ hobj] at hOtime
      rw [packumentTimeVersions, hOtime] at he
      simp only [Option.getD_some] at he
      rw [entries_nonobj t hobj] at he
      cases he
  | true =>
      cases t with
      | obj tf =>
          rw [foldl_deleteProp_obj] at hOtime
          rw [packumentTimeVersions, hOtime] at he
          simp only [Option.getD_some, JsValue.entries] at he
          have hef := List.mem_filter.mp he
          have hes := List.mem_filter.mp hef.1
          by_contra hp
          have hp' : (!ex && jsDateAfter e.2 c) = true := by
            cases hx : (!ex && jsDateAfter e.2 c) with
            | false => exact absurd hx hp
            | true => rfl
          have hePTV : e ∈ packumentTimeVersions body := by
            rw [packumentTimeVersions_eq body tf ht]
            exact List.mem_filter.mpr ⟨hes.1, hef.2⟩
          have heTrig : e ∈ (packumentTimeVersions body).filter
              (fun e => !ex && jsDateAfter e.2 c) :=
            List.mem_filter.mpr ⟨hePTV, hp'⟩
          have : (((packumentTimeVersions body).filter
              (fun e => !ex && jsDateAfter e.2 c)).any (fun e' => e.1 == e'.1)) = true := by
            simp only [List.any_eq_true]
            exact ⟨e, heTrig, by simp⟩
          rw [this] at hes
          cases hes.2
      | str s => simp [JsValue.isObj] at hobj
      | num n => simp [JsValue.isObj] at hobj
      | jbool b => simp [JsValue.isObj] at hobj
      | jnull => simp [JsValue.isObj] at hobj
      | arr elems => simp [JsValue.isObj] at hobj

/-- C8: the npm metadata rewriter is idempotent for a fixed cutoff — applying
`modifyNpmInfoResponse` to its own output (with the headers as the first pass
left them and the same cutoff) returns the same body and headers, hence
byte-equal serialized JSON.  Bodies that fail the rewriter's preconditions are
returned unchanged and are covered by the same statement. -/
theorem modifyNpmInfoResponse_idem (c : Int) (body : JsValue) (headers : Option Headers) :
    modifyNpmInfoResponse c (modifyNpmInfoResponse c body headers).1
        (modifyNpmInfoResponse c body headers).2
      = modifyNpmInfoResponse c body headers
    ∧ serializeJson (modifyNpmInfoResponse c (modifyNpmInfoResponse c body headers).1
        (modifyNpmInfoResponse c body headers).2).1
      = serializeJson (modifyNpmInfoResponse c body headers).1 := by
  have main : modifyNpmInfoResponse c (modifyNpmInfoResponse c body headers).1
      (modifyNpmInfoResponse c body headers).2 = modifyNpmInfoResponse c body headers := by
    by_cases hct0 : contentTypeIsJson headers = true
    · obtain ⟨h, rfl⟩ : ∃ h, headers = some h := by
        cases headers with
        | none => rw [show contentTypeIsJson none = false from rfl] at hct0; cases hct0
        | some h => exact ⟨h, rfl⟩
      by_cases hsh : truthyOpt (body.getProp "time") = true
          ∧ truthyOpt (body.getProp "dist-tags") = true
          ∧ truthyOpt (body.getProp "versions") = true
      · obtain ⟨h1, h2, h3⟩ := hsh
        cases hx : isPackageExemptFromAgeCheck (body.getProp "name") with
        | error u =>
            rw [modifyNpmInfoResponse_early c body (some h) (Or.inr (Or.inr ⟨u, hx⟩))]
            exact modifyNpmInfoResponse_early c body (some h) (Or.inr (Or.inr ⟨u, hx⟩))
        | ok ex =>
            have hO2 := modifyNpm_snd c body h hct0 h1 h2 h3 ex hx
            have h1' : truthyOpt ((modifyNpmInfoResponse c body (some h)).1.getProp "time")
                = true := by
              rw [modifyNpm_getProp_eq_stage c body h hct0 h1 h2 h3 ex hx "time" (by decide),
                stage_truthy_time]
              exact h1
            have h3' : truthyOpt ((modifyNpmInfoResponse c body (some h)).1.getProp "versions")
                = true := by
              rw [modifyNpm_getProp_eq_stage c body h hct0 h1 h2 h3 ex hx "versions" (by decide),
                stage_truthy_versions]
              exact h3
            have h2' : truthyOpt ((modifyNpmInfoResponse c body (some h)).1.getProp "dist-tags")
                = true := by
              rw [modifyNpmInfoResponse_main c body h hct0 h1 h2 h3 ex hx]
              have hsdT : truthyOpt ((npmFilterStage c ex (packumentTimeVersions body)
                  (body, h)).1.getProp "dist-tags") = true := by
                rw [stage_truthy_distTags]
                exact h2
              by_cases hb : (truthyOpt (getProp2 body "dist-tags" "latest")
                  && !truthyOpt (getProp2 (npmFilterStage c ex (packumentTimeVersions body)
                        (body, h)).1 "dist-tags" "latest")) = true
              · rw [if_pos hb]
                cases hclt : calculateLatestTag
                    (((npmFilterStage c ex (packumentTimeVersions body) (body, h)).1.getProp
                      "time").getD .jnull) with
                | none => exact hsdT
                | some v =>
                    simp only []
                    rw [getProp_updateField_self]
                    cases hsd : (npmFilterStage c ex (packumentTimeVersions body)
                        (body, h)).1.getProp "dist-tags" with
                    | none => rw [hsd] at hsdT; cases hsdT
                    | some dt =>
                        rw [hsd] at hsdT
                        simp only [Option.map_some', truthyOpt, truthy_setProp]
                        simpa [truthyOpt] using hsdT
              · rw [if_neg hb]
                exact hsdT
            have hexO : isPackageExemptFromAgeCheck
                ((modifyNpmInfoResponse c body (some h)).1.getProp "name") = Except.ok ex := by
              rw [modifyNpm_getProp_eq_stage c body h hct0 h1 h2 h3 ex hx "name" (by decide),
                stage_getProp_name]
              exact hx
            have hnt := out_no_trigger c body h hct0 h1 h2 h3 ex hx
            have hstage2 := npmFilterStage_no_trigger c ex
              (packumentTimeVersions (modifyNpmInfoResponse c body (some h)).1)
              ((modifyNpmInfoResponse c body (some h)).1,
                (npmFilterStage c ex (packumentTimeVersions body) (body, h)).2) hnt
            rw [hO2]
            rw [modifyNpmInfoResponse_main c (modifyNpmInfoResponse c body (some h)).1
              (npmFilterStage c ex (packumentTimeVersions body) (body, h)).2
              (by rw [stage_contentType]; exact hct0) h1' h2' h3' ex hexO]
            rw [hstage2]
            rw [if_neg (by simp)]
            rw [← hO2]
      · have he1 : modifyNpmInfoResponse c body (some h) = (body, some h) :=
          modifyNpmInfoResponse_early c body (some h) (Or.inr (Or.inl hsh))
        rw [he1]
        exact he1
    · have he1 : modifyNpmInfoResponse c body headers = (body, headers) :=
        modifyNpmInfoResponse_early c body headers
          (Or.inl (by revert hct0; cases contentTypeIsJson headers <;> simp))
      rw [he1]
      exact he1
  exact ⟨main, by rw [main]⟩

theorem charListLt_nil_right (a : List Char) : charListLt a [] = false := by
  cases a <;> rfl

theorem charListLt_trans : ∀ (a b c : List Char),
    charListLt a b = true → charListLt b c = true → charListLt a c = true := by
  intro a
  induction a with
  | nil =>
      intro b c hab hbc
      cases c with
      | nil =>
          cases b with
          | nil => cases hab
          | cons y ys => rw [charListLt_nil_right] at hbc; cases hbc
      | cons z zs => rfl
  | cons x xs ih =>
      intro b c hab hbc
      cases b with
      | nil => rw [charListLt_nil_right] at hab; cases hab
      | cons y ys =>
          cases c with
          | nil => rw [charListLt_nil_right] at hbc; cases hbc
          | cons z zs =>
              simp only [charListLt] at hab hbc ⊢
              by_cases hxy : x < y
              · by_cases hyz : y < z
                · rw [if_pos (lt_trans hxy hyz)]
                · by_cases hzy : z < y
                  · rw [if_neg hyz, if_pos hzy] at hbc
                    cases hbc
                  · have hy : y = z := le_antisymm (le_of_not_lt hzy) (le_of_not_lt hyz)
                    subst hy
                    rw [if_pos hxy]
              · by_cases hyx : y < x
                · rw [if_neg hxy, if_pos hyx] at hab
                  cases hab
                · have hx : x = y := le_antisymm (le_of_not_lt hyx) (le_of_not_lt hxy)
                  subst hx
                  rw [if_neg hxy, if_neg hyx] at hab
                  by_cases hyz : x < z
                  · rw [if_pos hyz]
                  · by_cases hzy : z < x
                    · rw [if_neg hyz, if_pos hzy] at hbc
                      cases hbc
                    · have hz : x = z := le_antisymm (le_of_not_lt hzy) (le_of_not_lt hyz)
                      subst hz
                      rw [if_neg hyz, if_neg hzy] at hbc ⊢
                      exact ih ys zs hab hbc

theorem charListLt_total : ∀ (a b : List Char),
    charListLt a b = false → a = b ∨ charListLt b a = true := by
  intro a
  induction a with
  | nil =>
      intro b h
      cases b with
      | nil => exact Or.inl rfl
      | cons z zs => cases h
  | cons x xs ih =>
      intro b h
      cases b with
      | nil => exact Or.inr rfl
      | cons y ys =>
          simp only [charListLt] at h ⊢
          by_cases hxy : x < y
          · rw [if_pos hxy] at h
            cases h
          · by_cases hyx : y < x
            · exact Or.inr (by rw [if_pos hyx])
            · have hx : x = y := le_antisymm (le_of_not_lt hyx) (le_of_not_lt hxy)
              subst hx
              rw [if_neg hxy, if_neg hyx] at h
              rcases ih ys h with heq | hlt
              · exact Or.inl (by rw [heq])
              · refine Or.inr ?_
                rw [if_neg hxy, if_neg hyx]
                exact hlt

theorem setField_append_of_not_mem (l : List (String × JsValue)) (k : String) (v : JsValue)
    (h : ∀ kv ∈ l, kv.1 ≠ k) : setField l k v = l ++ [(k, v)] := by
  induction l with
  | nil => rfl
  | cons e rest ih =>
      obtain ⟨a, w⟩ := e
      simp only [setField]
      rw [if_neg (h (a, w) (List.mem_cons_self _ _))]
      rw [ih (fun kv hkv => h kv (List.mem_cons_of_mem _ hkv))]
      rfl

theorem fromEntries_aux : ∀ (l acc : List (String × JsValue)),
    ((acc ++ l).map Prod.fst).Nodup →
    l.foldl (fun acc kv => setField acc kv.1 kv.2) acc = acc ++ l := by
  intro l
  induction l with
  | nil => intro acc _; simp
  | cons e rest ih =>
      intro acc hnd
      rw [List.foldl_cons]
      have hnotin : ∀ kv ∈ acc, kv.1 ≠ e.1 := by
        intro kv hkv heq
        rw [List.map_append] at hnd
        have hdisj := (List.nodup_append.mp hnd).2.2
        have h1 : kv.1 ∈ acc.map Prod.fst := List.mem_map_of_mem Prod.fst hkv
        have h2 : kv.1 ∈ (e :: rest).map Prod.fst := by
          rw [heq]
          exact List.mem_map_of_mem Prod.fst (List.mem_cons_self _ _)
        exact hdisj h1 h2
      rw [setField_append_of_not_mem acc e.1 e.2 hnotin]
      have hnd2 : (((acc ++ [(e.1, e.2)]) ++ rest).map Prod.fst).Nodup := by
        rw [Prod.mk.eta, List.append_assoc, List.singleton_append]
        exact hnd
      rw [ih (acc ++ [(e.1, e.2)]) hnd2, Prod.mk.eta, List.append_assoc,
        List.singleton_append]

theorem fromEntries_eq_self (l : List (String × JsValue))
    (hnd : (l.map Prod.fst).Nodup) : fromEntries l = l := by
  have := fromEntries_aux l [] (by simpa using hnd)
  simpa [fromEntries] using this

theorem charListLt_irrefl : ∀ (a : List Char), charListLt a a = false := by
  intro a
  induction a with
  | nil => rfl
  | cons x xs ih =>
      simp only [charListLt]
      rw [if_neg (lt_irrefl x), if_neg (lt_irrefl x)]
      exact ih

theorem lookupField_setField_self (l : List (String × JsValue)) (k : String) (v : JsValue) :
    lookupField (setField l k v) k = some v := by
  induction l with
  | nil => simp [setField, lookupField]
  | cons e rest ih =>
      obtain ⟨a, w⟩ := e
      simp only [setField]
      by_cases ha : a = k
      · rw [if_pos ha]
        simp [lookupField]
      · rw [if_neg ha]
        simp only [lookupField, if_neg ha]
        exact ih

theorem lookupField_eq_none_of_not_mem (l : List (String × JsValue)) (k : String)
    (h : k ∉ l.map Prod.fst) : lookupField l k = none := by
  induction l with
  | nil => rfl
  | cons e rest ih =>
      obtain ⟨a, w⟩ := e
      rw [List.map_cons] at h
      simp only [lookupField]
      rw [if_neg (fun ha => h (by rw [ha]; exact List.mem_cons_self _ _))]
      exact ih (fun hm => h (List.mem_cons_of_mem _ hm))

theorem lookupField_filter_cases (q : (String × JsValue) → Bool) (k : String) :
    ∀ (l : List (String × JsValue)), (l.map Prod.fst).Nodup →
    lookupField (l.filter q) k = none ∨ lookupField (l.filter q) k = lookupField l k := by
  intro l
  induction l with
  | nil => intro _; exact Or.inl rfl
  | cons e rest ih =>
      intro hnd
      obtain ⟨a, w⟩ := e
      rw [List.map_cons] at hnd
      rw [List.filter_cons]
      by_cases ha : a = k
      · subst ha
        by_cases hq : q (a, w) = true
        · rw [if_pos hq]
          refine Or.inr ?_
          simp [lookupField]
        · rw [if_neg hq]
          refine Or.inl ?_
          apply lookupField_eq_none_of_not_mem
          intro hmem
          have hsub : List.Sublist ((rest.filter q).map Prod.fst) (rest.map Prod.fst) :=
            List.Sublist.map Prod.fst (List.filter_sublist rest)
          exact (List.nodup_cons.mp hnd).1 (hsub.subset hmem)
      · have htail := ih (List.nodup_cons.mp hnd).2
        by_cases hq : q (a, w) = true
        · rw [if_pos hq]
          simp only [lookupField, if_neg ha]
          exact htail
        · rw [if_neg hq]
          rcases htail with hn | he
          · exact Or.inl hn
          · refine Or.inr ?_
            rw [he]
            simp only [lookupField, if_neg ha]

theorem getMostRecentTag_fold (l : List (String × JsValue)) :
    ∀ (w u : String),
      (∀ e ∈ l, ∃ s, e.2 = JsValue.str s) →
      ∃ w' u',
        l.foldl getMostRecentTagStep (some w, some (.str u)) = (some w', some (.str u'))
        ∧ ((w' = w ∧ u' = u) ∨ (w', JsValue.str u') ∈ l)
        ∧ charListLt u'.data u.data = false
        ∧ (∀ e ∈ l, ∀ s, e.2 = JsValue.str s → charListLt u'.data s.data = false) := by
  induction l with
  | nil =>
      intro w u _
      exact ⟨w, u, rfl, Or.inl ⟨rfl, rfl⟩, charListLt_irrefl _, by intro e he; cases he⟩
  | cons e rest ih =>
      intro w u hstr
      obtain ⟨s, hs⟩ := hstr e (List.mem_cons_self _ _)
      have hstr' : ∀ e' ∈ rest, ∃ s', e'.2 = JsValue.str s' :=
        fun e' he' => hstr e' (List.mem_cons_of_mem _ he')
      rw [List.foldl_cons]
      have hstep : getMostRecentTagStep (some w, some (JsValue.str u)) e
          = if u.data.isEmpty || charListLt u.data s.data then (some e.1, some (JsValue.str s))
            else (some w, some (JsValue.str u)) := by
        simp only [getMostRecentTagStep, truthyOpt, JsValue.truthy, jsLtVal, hs,
          Bool.not_not]
      by_cases hcond : (u.data.isEmpty || charListLt u.data s.data) = true
      · rw [hstep, if_pos hcond]
        obtain ⟨w', u', heq, hmem, hle, hall⟩ := ih e.1 s hstr'
        refine ⟨w', u', heq, ?_, ?_, ?_⟩
        · rcases hmem with ⟨rfl, rfl⟩ | hm
          · refine Or.inr ?_
            rw [← hs, Prod.mk.eta]
            exact List.mem_cons_self _ _
          · exact Or.inr (List.mem_cons_of_mem _ hm)
        · rcases Bool.or_eq_true _ _ |>.mp hcond with hemp | hlt
          · have : u.data = [] := by simpa using hemp
            rw [this]
            exact charListLt_nil_right _
          · cases hx : charListLt u'.data u.data with
            | false => rfl
            | true =>
                have := charListLt_trans _ _ _ hx hlt
                rw [this] at hle
                cases hle
        · intro e' he' s' hs'
          rcases List.mem_cons.mp he' with rfl | hm
          · have hss : s' = s := by
              have h2 := hs'.symm.trans hs
              cases h2
              rfl
            rw [hss]
            exact hle
          · exact hall e' hm s' hs'
      · rw [hstep, if_neg hcond]
        obtain ⟨w', u', heq, hmem, hle, hall⟩ := ih w u hstr'
        have hne : u.data.isEmpty = false := by
          cases hx : u.data.isEmpty with
          | false => rfl
          | true => rw [hx] at hcond; simp at hcond
        have hus : charListLt u.data s.data = false := by
          cases hx : charListLt u.data s.data with
          | false => rfl
          | true => rw [hx] at hcond; simp at hcond
        refine ⟨w', u', heq, ?_, hle, ?_⟩
        · rcases hmem with hww | hm
          · exact Or.inl hww
          · exact Or.inr (List.mem_cons_of_mem _ hm)
        · intro e' he' s' hs'
          rcases List.mem_cons.mp he' with rfl | hm
          · have hss : s' = s := by
              have h2 := hs'.symm.trans hs
              cases h2
              rfl
            subst hss
            cases hx : charListLt u'.data s'.data with
            | false => rfl
            | true =>
                exfalso
                rcases charListLt_total u.data s'.data hus with heq2 | hlt2
                · rw [← heq2] at hx
                  rw [hx] at hle
                  cases hle
                · have := charListLt_trans _ _ _ hx hlt2
                  rw [this] at hle
                  cases hle
          · exact hall e' hm s' hs'

theorem getMostRecentTag_max (l : List (String × JsValue))
    (hstr : ∀ e ∈ l, ∃ s, e.2 = JsValue.str s) (hne : l ≠ []) :
    ∃ w u, getMostRecentTag l = some w ∧ (w, JsValue.str u) ∈ l
      ∧ ∀ e ∈ l, ∀ s, e.2 = JsValue.str s → charListLt u.data s.data = false := by
  cases l with
  | nil => exact absurd rfl hne
  | cons e rest =>
      obtain ⟨s, hs⟩ := hstr e (List.mem_cons_self _ _)
      have hstep : getMostRecentTagStep (none, none) e = (some e.1, some e.2) := by
        simp [getMostRecentTagStep, truthyOpt]
      obtain ⟨w', u', heq, hmem, hle, hall⟩ :=
        getMostRecentTag_fold rest e.1 s
          (fun e' he' => hstr e' (List.mem_cons_of_mem _ he'))
      refine ⟨w', u', ?_, ?_, ?_⟩
      · unfold getMostRecentTag
        rw [List.foldl_cons, hstep, hs, heq]
      · rcases hmem with ⟨rfl, rfl⟩ | hm
        · rw [← hs, Prod.mk.eta]
          exact List.mem_cons_self _ _
        · exact List.mem_cons_of_mem _ hm
      · intro e' he' s' hs'
        rcases List.mem_cons.mp he' with rfl | hm
        · have hss : s' = s := by
            have h2 := hs'.symm.trans hs
            cases h2
            rfl
          rw [hss]
          exact hle
        · exact hall e' hm s' hs'

theorem calculateLatestTag_spec (TF : List (String × JsValue))
    (hnd : (TF.map Prod.fst).Nodup)
    (hstr : ∀ e ∈ TF, ∃ s, e.2 = JsValue.str s)
    (hkey : "" ∉ TF.map Prod.fst) :
    ((∃ e ∈ TF.filter (fun x => x.1 != "created" && x.1 != "modified"),
        strIncludes e.1 "-" = false) →
      ∃ w u, calculateLatestTag (JsValue.obj TF) = some w
        ∧ (w, JsValue.str u) ∈ TF.filter (fun x => x.1 != "created" && x.1 != "modified")
        ∧ strIncludes w "-" = false
        ∧ ∀ e ∈ TF.filter (fun x => x.1 != "created" && x.1 != "modified"),
            strIncludes e.1 "-" = false → ∀ s, e.2 = JsValue.str s →
              charListLt u.data s.data = false)
    ∧ ((∀ e ∈ TF.filter (fun x => x.1 != "created" && x.1 != "modified"),
          strIncludes e.1 "-" = true) →
        TF.filter (fun x => x.1 != "created" && x.1 != "modified") ≠ [] →
      ∃ w u, calculateLatestTag (JsValue.obj TF) = some w
        ∧ (w, JsValue.str u) ∈ TF.filter (fun x => x.1 != "created" && x.1 != "modified")
        ∧ ∀ e ∈ TF.filter (fun x => x.1 != "created" && x.1 != "modified"),
            ∀ s, e.2 = JsValue.str s → charListLt u.data s.data = false)
    ∧ (TF.filter (fun x => x.1 != "created" && x.1 != "modified") = [] →
        calculateLatestTag (JsValue.obj TF) = none) := by
  have hLsub : List.Sublist (TF.filter (fun x => x.1 != "created" && x.1 != "modified")) TF :=
    List.filter_sublist TF
  have hLnd : ((TF.filter (fun x => x.1 != "created" && x.1 != "modified")).map
      Prod.fst).Nodup := hnd.sublist (hLsub.map Prod.fst)
  have hLstr : ∀ e ∈ TF.filter (fun x => x.1 != "created" && x.1 != "modified"),
      ∃ s, e.2 = JsValue.str s := fun e he => hstr e (hLsub.subset he)
  refine ⟨?_, ?_, ?_⟩
  · rintro ⟨e0, he0, hd0⟩
    have hmemN : e0 ∈ (TF.filter
        (fun x => x.1 != "created" && x.1 != "modified")).filter
        (fun x => !strIncludes x.1 "-") :=
      List.mem_filter.mpr ⟨he0, by rw [hd0]; rfl⟩
    have hNnd : (((TF.filter (fun x => x.1 != "created" && x.1 != "modified")).filter
        (fun x => !strIncludes x.1 "-")).map Prod.fst).Nodup :=
      hLnd.sublist ((List.filter_sublist _).map Prod.fst)
    have hfe : fromEntries ((TF.filter (fun x => x.1 != "created" && x.1 != "modified")).filter
        (fun x => !strIncludes x.1 "-"))
        = (TF.filter (fun x => x.1 != "created" && x.1 != "modified")).filter
          (fun x => !strIncludes x.1 "-") := fromEntries_eq_self _ hNnd
    obtain ⟨w, u, hw, hmem, hmax⟩ := getMostRecentTag_max
      ((TF.filter (fun x => x.1 != "created" && x.1 != "modified")).filter
        (fun x => !strIncludes x.1 "-"))
      (fun e he => hLstr e (List.mem_of_mem_filter he))
      (List.ne_nil_of_mem hmemN)
    have hww : w ≠ "" := by
      intro hw0
      apply hkey
      rw [← hw0]
      exact List.mem_map.mpr ⟨(w, JsValue.str u),
        hLsub.subset (List.mem_of_mem_filter hmem), rfl⟩
    refine ⟨w, u, ?_, List.mem_of_mem_filter hmem, ?_, ?_⟩
    · simp only [calculateLatestTag, JsValue.entries]
      rw [hfe, hw]
      rw [if_pos (by simp [hww])]
    · have := (List.mem_filter.mp hmem).2
      cases hx : strIncludes w "-" with
      | false => rfl
      | true =>
          rw [show ((w, JsValue.str u).1 : String) = w from rfl, hx] at this
          cases this
    · intro e he hde s hs
      exact hmax e (List.mem_filter.mpr ⟨he, by rw [hde]; rfl⟩) s hs
  · intro hall hne
    have hN0 : (TF.filter (fun x => x.1 != "created" && x.1 != "modified")).filter
        (fun x => !strIncludes x.1 "-") = [] := by
      rw [List.filter_eq_nil_iff]
      intro x hx
      rw [hall x hx]
      simp
    have hD : (TF.filter (fun x => x.1 != "created" && x.1 != "modified")).filter
        (fun x => strIncludes x.1 "-")
        = TF.filter (fun x => x.1 != "created" && x.1 != "modified") :=
      List.filter_eq_self.mpr hall
    have hfe : fromEntries (TF.filter (fun x => x.1 != "created" && x.1 != "modified"))
        = TF.filter (fun x => x.1 != "created" && x.1 != "modified") :=
      fromEntries_eq_self _ hLnd
    obtain ⟨w, u, hw, hmem, hmax⟩ := getMostRecentTag_max
      (TF.filter (fun x => x.1 != "created" && x.1 != "modified")) hLstr hne
    refine ⟨w, u, ?_, hmem, hmax⟩
    simp only [calculateLatestTag, JsValue.entries]
    rw [hN0, hD, hfe, hw]
    rfl
  · intro hL0
    simp only [calculateLatestTag, JsValue.entries]
    rw [hL0]
    rfl

/-- C4: if the packument had a truthy `dist-tags.latest` before rewriting and
the removal stage left it falsy, the rewriter recomputes `latest` over the
surviving `time` entries: it becomes the key of the maximum-timestamp surviving
entry whose version contains no `-`; when every surviving entry contains a `-`,
the key of the maximum-timestamp such entry; and when no entry survives at all,
`latest` is absent from the output `dist-tags`. -/
theorem npm_latest_recomputation (c : Int) (h : Headers) (body : JsValue)
    (tf df : List (String × JsValue)) (ex : Bool)
    (hct : contentTypeIsJson (some h) = true)
    (htime : body.getProp "time" = some (.obj tf))
    (hnd : (tf.map Prod.fst).Nodup)
    (hstr : ∀ e ∈ tf, ∃ s, e.2 = JsValue.str s)
    (hkey : "" ∉ tf.map Prod.fst)
    (hdist : body.getProp "dist-tags" = some (.obj df))
    (hdnd : (df.map Prod.fst).Nodup)
    (htV : truthyOpt (body.getProp "versions") = true)
    (hex : isPackageExemptFromAgeCheck (body.getProp "name") = Except.ok ex)
    (hlat : truthyOpt (getProp2 body "dist-tags" "latest") = true)
    (hrem : truthyOpt (getProp2 (npmFilterStage c ex (packumentTimeVersions body) (body, h)).1
        "dist-tags" "latest") = false) :
    ((∃ e ∈ packumentTimeVersions (modifyNpmInfoResponse c body (some h)).1,
        strIncludes e.1 "-" = false) →
      ∃ w u, getProp2 (modifyNpmInfoResponse c body (some h)).1 "dist-tags" "latest"
          = some (.str w)
        ∧ (w, JsValue.str u) ∈ packumentTimeVersions (modifyNpmInfoResponse c body (some h)).1
        ∧ strIncludes w "-" = false
        ∧ ∀ e ∈ packumentTimeVersions (modifyNpmInfoResponse c body (some h)).1,
            strIncludes e.1 "-" = false → ∀ s, e.2 = JsValue.str s →
              charListLt u.data s.data = false)
    ∧ ((∀ e ∈ packumentTimeVersions (modifyNpmInfoResponse c body (some h)).1,
          strIncludes e.1 "-" = true) →
        packumentTimeVersions (modifyNpmInfoResponse c body (some h)).1 ≠ [] →
      ∃ w u, getProp2 (modifyNpmInfoResponse c body (some h)).1 "dist-tags" "latest"
          = some (.str w)
        ∧ (w, JsValue.str u) ∈ packumentTimeVersions (modifyNpmInfoResponse c body (some h)).1
        ∧ ∀ e ∈ packumentTimeVersions (modifyNpmInfoResponse c body (some h)).1,
            ∀ s, e.2 = JsValue.str s → charListLt u.data s.data = false)
    ∧ (packumentTimeVersions (modifyNpmInfoResponse c body (some h)).1 = [] →
        getProp2 (modifyNpmInfoResponse c body (some h)).1 "dist-tags" "latest" = none) := by
  have htT : truthyOpt (body.getProp "time") = true := by rw [htime]; rfl
  have htD : truthyOpt (body.getProp "dist-tags") = true := by rw [hdist]; rfl
  have hstT : (npmFilterStage c ex (packumentTimeVersions body) (body, h)).1.getProp "time"
      = some (.obj (tf.filter (fun kv =>
          !(((packumentTimeVersions body).filter (fun e => !ex && jsDateAfter e.2 c)).any
            (fun e => kv.1 == e.1))))) := by
    rw [npmFilterStage_fst, getProp_delFold_time, htime]
    simp only [Option.map_some']
    rw [foldl_deleteProp_obj]
  have hstD : (npmFilterStage c ex (packumentTimeVersions body) (body, h)).1.getProp "dist-tags"
      = some (.obj (df.filter (fun kv =>
          !(((packumentTimeVersions body).filter (fun e => !ex && jsDateAfter e.2 c)).any
            (fun e => jsLooseEqStr e.1 kv.2))))) := by
    rw [npmFilterStage_fst, getProp_delFold_distTags, hdist]
    simp only [Option.map_some']
    rw [foldl_filterTags_obj]
  have hT : (modifyNpmInfoResponse c body (some h)).1.getProp "time"
      = some (.obj (tf.filter (fun kv =>
          !(((packumentTimeVersions body).filter (fun e => !ex && jsDateAfter e.2 c)).any
            (fun e => kv.1 == e.1))))) := by
    rw [modifyNpm_getProp_eq_stage c body h hct htT htD htV ex hex "time" (by decide)]
    exact hstT
  have hTFsub : List.Sublist (tf.filter (fun kv =>
      !(((packumentTimeVersions body).filter (fun e => !ex && jsDateAfter e.2 c)).any
        (fun e => kv.1 == e.1)))) tf := List.filter_sublist tf
  have hTFnd : ((tf.filter (fun kv =>
      !(((packumentTimeVersions body).filter (fun e => !ex && jsDateAfter e.2 c)).any
        (fun e => kv.1 == e.1)))).map Prod.fst).Nodup := hnd.sublist (hTFsub.map Prod.fst)
  have hTFstr : ∀ e ∈ tf.filter (fun kv =>
      !(((packumentTimeVersions body).filter (fun e => !ex && jsDateAfter e.2 c)).any
        (fun e => kv.1 == e.1))), ∃ s, e.2 = JsValue.str s :=
    fun e he => hstr e (hTFsub.subset he)
  have hTFkey : "" ∉ (tf.filter (fun kv =>
      !(((packumentTimeVersions body).filter (fun e => !ex && jsDateAfter e.2 c)).any
        (fun e => kv.1 == e.1)))).map Prod.fst :=
    fun hm => hkey ((hTFsub.map Prod.fst).subset hm)
  have hpv : packumentTimeVersions (modifyNpmInfoResponse c body (some h)).1
      = (tf.filter (fun kv =>
          !(((packumentTimeVersions body).filter (fun e => !ex && jsDateAfter e.2 c)).any
            (fun e => kv.1 == e.1)))).filter
          (fun x => x.1 != "created" && x.1 != "modified") := by
    rw [packumentTimeVersions, hT]
    simp only [Option.getD_some, JsValue.entries]
  have hcond : (truthyOpt (getProp2 body "dist-tags" "latest")
      && !truthyOpt (getProp2 (npmFilterStage c ex (packumentTimeVersions body) (body, h)).1
            "dist-tags" "latest")) = true := by
    rw [hlat, hrem]
    rfl
  have hDFnone : lookupField (df.filter (fun kv =>
      !(((packumentTimeVersions body).filter (fun e => !ex && jsDateAfter e.2 c)).any
        (fun e => jsLooseEqStr e.1 kv.2)))) "latest" = none := by
    rcases lookupField_filter_cases
        (fun kv => !(((packumentTimeVersions body).filter
          (fun e => !ex && jsDateAfter e.2 c)).any (fun e => jsLooseEqStr e.1 kv.2)))
        "latest" df hdnd with hn | he
    · exact hn
    · exfalso
      have hrem2 : truthyOpt (lookupField (df.filter (fun kv =>
          !(((packumentTimeVersions body).filter (fun e => !ex && jsDateAfter e.2 c)).any
            (fun e => jsLooseEqStr e.1 kv.2)))) "latest") = false := by
        have := hrem
        unfold getProp2 at this
        rw [hstD] at this
        exact this
      have hlat2 : truthyOpt (lookupField df "latest") = true := by
        have := hlat
        unfold getProp2 at this
        rw [hdist] at this
        exact this
      rw [he, hlat2] at hrem2
      cases hrem2
  obtain ⟨hcaseA, hcaseB, hcaseC⟩ := calculateLatestTag_spec
    (tf.filter (fun kv =>
      !(((packumentTimeVersions body).filter (fun e => !ex && jsDateAfter e.2 c)).any
        (fun e => kv.1 == e.1)))) hTFnd hTFstr hTFkey
  refine ⟨?_, ?_, ?_⟩
  · intro hex0
    rw [hpv] at hex0
    obtain ⟨w, u, hclt, hmem, hwd, hmax⟩ := hcaseA hex0
    refine ⟨w, u, ?_, by rw [hpv]; exact hmem, hwd, ?_⟩
    · rw [modifyNpmInfoResponse_main c body h hct htT htD htV ex hex, if_pos hcond]
      rw [hstT]
      simp only [Option.getD_some]
      rw [hclt]
      simp only []
      unfold getProp2
      rw [getProp_updateField_self, hstD]
      simp only [Option.map_some']
      show lookupField (setField _ "latest" (JsValue.str w)) "latest" = some (JsValue.str w)
      exact lookupField_setField_self _ _ _
    · intro e he hde s hs
      rw [hpv] at he
      exact hmax e he hde s hs
  · intro hall hne
    rw [hpv] at hall hne
    obtain ⟨w, u, hclt, hmem, hmax⟩ := hcaseB hall hne
    refine ⟨w, u, ?_, by rw [hpv]; exact hmem, ?_⟩
    · rw [modifyNpmInfoResponse_main c body h hct htT htD htV ex hex, if_pos hcond]
      rw [hstT]
      simp only [Option.getD_some]
      rw [hclt]
      simp only []
      unfold getProp2
      rw [getProp_updateField_self, hstD]
      simp only [Option.map_some']
      show lookupField (setField _ "latest" (JsValue.str w)) "latest" = some (JsValue.str w)
      exact lookupField_setField_self _ _ _
    · intro e he s hs
      rw [hpv] at he
      exact hmax e he s hs
  · intro h0
    rw [hpv] at h0
    have hclt := hcaseC h0
    rw [modifyNpmInfoResponse_main c body h hct htT htD htV ex hex, if_pos hcond]
    rw [hstT]
    simp only [Option.getD_some]
    rw [hclt]
    simp only []
    unfold getProp2
    rw [hstD]
    exact hDFnone

/-- Witness for `npm_latest_recomputation`: rewriting `samplePackument` at
`sampleCutoffMillis` removes version `3.0.0` (the pre-rewrite `latest`), and the
recomputed `latest` is `1.0.0`, the only surviving version without a `-`. -/
theorem npm_latest_recomputation_witness :
    truthyOpt (getProp2 samplePackument "dist-tags" "latest") = true
    ∧ truthyOpt (getProp2 (npmFilterStage sampleCutoffMillis false
          (packumentTimeVersions samplePackument) (samplePackument, sampleHeaders)).1
          "dist-tags" "latest") = false
    ∧ (∃ w u, getProp2 (modifyNpmInfoResponse sampleCutoffMillis samplePackument
            (some sampleHeaders)).1 "dist-tags" "latest" = some (.str w)
        ∧ (w, JsValue.str u) ∈ packumentTimeVersions (modifyNpmInfoResponse sampleCutoffMillis
            samplePackument (some sampleHeaders)).1
        ∧ strIncludes w "-" = false
        ∧ ∀ e ∈ packumentTimeVersions (modifyNpmInfoResponse sampleCutoffMillis samplePackument
            (some sampleHeaders)).1,
            strIncludes e.1 "-" = false → ∀ s, e.2 = JsValue.str s →
              charListLt u.data s.data = false)
    ∧ getProp2 (modifyNpmInfoResponse sampleCutoffMillis samplePackument
        (some sampleHeaders)).1 "dist-tags" "latest" = some (.str "1.0.0") := by
  have hpte : packumentTimeVersions (modifyNpmInfoResponse sampleCutoffMillis samplePackument
      (some sampleHeaders)).1
      = [("1.0.0", JsValue.str "2024-01-03T00:00:00.000Z"),
         ("2.0.0-alpha", JsValue.str "2024-01-04T00:00:00.000Z")] := rfl
  refine ⟨rfl, rfl, ?_, rfl⟩
  refine (npm_latest_recomputation sampleCutoffMillis sampleHeaders samplePackument
    [("created", .str "2020-01-01T00:00:00.000Z"),
     ("modified", .str "2024-01-10T00:00:00.000Z"),
     ("3.0.0", .str "2024-01-09T00:00:00.000Z"),
     ("1.0.0", .str "2024-01-03T00:00:00.000Z"),
     ("2.0.0-alpha", .str "2024-01-04T00:00:00.000Z")]
    [("latest", .str "3.0.0"), ("alpha", .str "2.0.0-alpha")]
    false rfl rfl (by decide)
    (by intro e he; fin_cases he <;> exact ⟨_, rfl⟩)
    (by decide) rfl (by decide) rfl rfl rfl rfl).1 ?_
  exact ⟨("1.0.0", JsValue.str "2024-01-03T00:00:00.000Z"),
    by rw [hpte]; exact List.mem_cons_self _ _, rfl⟩

theorem charListIsPre_append (p t : List Char) : charListIsPre p (p ++ t) = true := by
  induction p with
  | nil => rfl
  | cons c rest ih => simp [charListIsPre, ih]

theorem strEndsWith_append (x e : String) : strEndsWith (x ++ e) e = true := by
  unfold strEndsWith
  rw [String.data_append, List.reverse_append]
  exact charListIsPre_append _ _

theorem strEndsWith_append_false (x e p : String)
    (h : charListIsPre p.data.reverse (e.data.reverse ++ x.data.reverse) = false) :
    strEndsWith (x ++ e) p = false := by
  unfold strEndsWith
  rw [String.data_append, List.reverse_append]
  exact h

theorem strToLower_append (x e : String) :
    strToLower (x ++ e) = strToLower x ++ strToLower e := by
  simp [strToLower, String.ext_iff, String.data_append]

theorem breakAtFirstDash_no_dash (l : List Char) (h : ('-' : Char) ∉ l) :
    breakAtFirstDash l = none := by
  induction l with
  | nil => rfl
  | cons c rest ih =>
      have hc : c ≠ '-' := fun hcc => h (hcc ▸ List.mem_cons_self _ _)
      have hr := ih (fun hm => h (List.mem_cons_of_mem _ hm))
      simp [breakAtFirstDash, hc, hr]

theorem breakAtFirstDash_append (a b : List Char) (h : ('-' : Char) ∉ a) :
    breakAtFirstDash (a ++ '-' :: b) = some (a, b) := by
  induction a with
  | nil => rfl
  | cons c rest ih =>
      have hc : c ≠ '-' := fun hcc => h (hcc ▸ List.mem_cons_self _ _)
      have hr := ih (fun hm => h (List.mem_cons_of_mem _ hm))
      simp [breakAtFirstDash, hc, hr]

theorem breakAtLastDash_append (a b : List Char) (h : ('-' : Char) ∉ b) :
    breakAtLastDash (a ++ '-' :: b) = some (a, b) := by
  unfold breakAtLastDash
  have hrev : (a ++ '-' :: b).reverse = b.reverse ++ '-' :: a.reverse := by
    rw [List.reverse_append]
    simp
  rw [hrev, breakAtFirstDash_append _ _ (fun hm => h (List.mem_reverse.mp hm))]
  simp

theorem strData_isEmpty_false (s : String) (h : s ≠ "") : s.data.isEmpty = false := by
  cases hx : s.data with
  | nil => exact absurd (by cases s; simp_all [String.ext_iff]) h
  | cons a t => rfl

theorem take_sub_append (l s : List Char) :
    (l ++ s).take ((l ++ s).length - s.length) = l := by
  rw [List.length_append, Nat.add_sub_cancel, List.take_left]

theorem sdistExtMatch_append (x : String) (ext : String) (hmem : ext ∈ sdistExtensions) :
    sdistExtMatch (x ++ ext) = some ext := by
  fin_cases hmem
  · unfold sdistExtMatch sdistExtensions
    rw [List.find?_cons_of_pos]
    rw [strToLower_append, show strToLower ".tar.gz" = ".tar.gz" from rfl]
    exact strEndsWith_append _ _
  · unfold sdistExtMatch sdistExtensions
    rw [List.find?_cons_of_neg, List.find?_cons_of_pos]
    · rw [strToLower_append, show strToLower ".zip" = ".zip" from rfl]
      exact strEndsWith_append _ _
    · intro hc
      rw [strToLower_append, show strToLower ".zip" = ".zip" from rfl,
        strEndsWith_append_false (strToLower x) ".zip" ".tar.gz" rfl] at hc
      exact Bool.noConfusion hc
  · unfold sdistExtMatch sdistExtensions
    rw [List.find?_cons_of_neg, List.find?_cons_of_neg, List.find?_cons_of_pos]
    · rw [strToLower_append, show strToLower ".tar.bz2" = ".tar.bz2" from rfl]
      exact strEndsWith_append _ _
    · intro hc
      rw [strToLower_append, show strToLower ".tar.bz2" = ".tar.bz2" from rfl,
        strEndsWith_append_false (strToLower x) ".tar.bz2" ".zip" rfl] at hc
      exact Bool.noConfusion hc
    · intro hc
      rw [strToLower_append, show strToLower ".tar.bz2" = ".tar.bz2" from rfl,
        strEndsWith_append_false (strToLower x) ".tar.bz2" ".tar.gz" rfl] at hc
      exact Bool.noConfusion hc
  · unfold sdistExtMatch sdistExtensions
    rw [List.find?_cons_of_neg, List.find?_cons_of_neg, List.find?_cons_of_neg,
      List.find?_cons_of_pos]
    · rw [strToLower_append, show strToLower ".tar.xz" = ".tar.xz" from rfl]
      exact strEndsWith_append _ _
    · intro hc
      rw [strToLower_append, show strToLower ".tar.xz" = ".tar.xz" from rfl,
        strEndsWith_append_false (strToLower x) ".tar.xz" ".tar.bz2" rfl] at hc
      exact Bool.noConfusion hc
    · intro hc
      rw [strToLower_append, show strToLower ".tar.xz" = ".tar.xz" from rfl,
        strEndsWith_append_false (strToLower x) ".tar.xz" ".zip" rfl] at hc
      exact Bool.noConfusion hc
    · intro hc
      rw [strToLower_append, show strToLower ".tar.xz" = ".tar.xz" from rfl,
        strEndsWith_append_false (strToLower x) ".tar.xz" ".tar.gz" rfl] at hc
      exact Bool.noConfusion hc

theorem ite_cond_false {α : Sort u_1} {b : Bool} (hb : b = false) (x y : α) :
    (if b then x else y) = y := by
  subst hb
  rfl

theorem ite_or_false {a b : Bool} (ha : a = false) (hb : b = false) {α : Sort u_1} (x y : α) :
    (if a ∨ b then x else y) = y := by
  subst ha
  subst hb
  rfl

/-- C9: the pip parser's contract on the decoded filename.  A wheel
`name-version-rest.whl` (dashless nonempty name, dashless version) parses as
`(name, version)` with underscores preserved; so does the single-dash wheel
`name-version.whl`; an sdist `name-version.ext` for the four recognized
extensions (matched case-insensitively) splits at the last dash into
`(name, version)`; a parsed version that is literally `latest` yields
`(undefined, undefined)` in every branch; and a filename matching neither
shape parses as `(undefined, undefined)`. -/
theorem pip_parse_contract (url filename : String)
    (hseg : extractDecodedLastSegment url = some filename) :
    (∀ name ver rest : String,
        filename = name ++ "-" ++ ver ++ "-" ++ rest ++ ".whl" →
        ('-' : Char) ∉ name.data → name ≠ "" →
        ('-' : Char) ∉ ver.data → ver ≠ "" →
        parsePipPackageFromUrl url
          = if ver = "latest" then (none, none) else (some name, some ver))
    ∧ (∀ name ver : String,
        filename = name ++ "-" ++ ver ++ ".whl" →
        ('-' : Char) ∉ name.data → name ≠ "" →
        ('-' : Char) ∉ ver.data → ver ≠ "" →
        parsePipPackageFromUrl url
          = if ver = "latest" then (none, none) else (some name, some ver))
    ∧ (∀ name ver ext : String, ext ∈ sdistExtensions →
        filename = name ++ "-" ++ ver ++ ext →
        name ≠ "" → ('-' : Char) ∉ ver.data → ver ≠ "" →
        parsePipPackageFromUrl url
          = if ver = "latest" then (none, none) else (some name, some ver))
    ∧ (strEndsWith filename ".whl" = false → sdistExtMatch filename = none →
        parsePipPackageFromUrl url = (none, none)) := by
  have hparse : parsePipPackageFromUrl url = parsePipFilename filename := by
    unfold parsePipPackageFromUrl
    rw [hseg]
  refine ⟨?_, ?_, ?_, ?_⟩
  · intro name ver rest hfn hnd hnne hvd hvne
    have hwhl : strEndsWith filename ".whl" = true := by
      rw [hfn]
      exact strEndsWith_append _ _
    have hdata : filename.data
        = (name.data ++ '-' :: (ver.data ++ '-' :: rest.data)) ++ (".whl" : String).data := by
      rw [hfn]
      simp only [String.data_append, show ("-" : String).data = ['-'] from rfl,
        List.append_assoc, List.cons_append, List.singleton_append, List.nil_append]
    have hbase : filename.data.take (filename.data.length - 4)
        = name.data ++ '-' :: (ver.data ++ '-' :: rest.data) := by
      rw [hdata]
      exact take_sub_append _ _
    have hwb : wheelBranch filename
        = some (if ver = "latest" then ((none, none) : Option String × Option String)
            else (some name, some ver)) := by
      simp only [wheelBranch, hbase,
        breakAtFirstDash_append name.data (ver.data ++ '-' :: rest.data) hnd,
        breakAtFirstDash_append ver.data rest.data hvd,
        ite_cond_false (strData_isEmpty_false name hnne),
        show String.mk name.data = name from rfl, show String.mk ver.data = ver from rfl]
      by_cases hlv : ver = "latest"
      · rw [if_pos (Or.inl hlv), if_pos hlv]
      · rw [if_neg (by rintro (h | h | h) <;>
            first | exact hlv h | exact hnne h | exact hvne h), if_neg hlv]
    have h1 : parsePipFilename filename = (match wheelBranch filename with
        | some r => r
        | none =>
            match sdistExtMatch filename with
            | some e =>
                match sdistBranch filename e with
                | some r => r
                | none => (none, none)
            | none => (none, none)) := by
      unfold parsePipFilename
      rw [hwhl]
      rfl
    rw [hparse, h1, hwb]
  · intro name ver hfn hnd hnne hvd hvne
    have hwhl : strEndsWith filename ".whl" = true := by
      rw [hfn]
      exact strEndsWith_append _ _
    have hdata : filename.data
        = (name.data ++ '-' :: ver.data) ++ (".whl" : String).data := by
      rw [hfn]
      simp only [String.data_append, show ("-" : String).data = ['-'] from rfl,
        List.append_assoc, List.cons_append, List.singleton_append, List.nil_append]
    have hbase : filename.data.take (filename.data.length - 4)
        = name.data ++ '-' :: ver.data := by
      rw [hdata]
      exact take_sub_append _ _
    have hwb : wheelBranch filename
        = some (if ver = "latest" then ((none, none) : Option String × Option String)
            else (some name, some ver)) := by
      simp only [wheelBranch, hbase,
        breakAtFirstDash_append name.data ver.data hnd,
        breakAtFirstDash_no_dash ver.data hvd,
        ite_cond_false (strData_isEmpty_false name hnne),
        show String.mk name.data = name from rfl, show String.mk ver.data = ver from rfl]
      by_cases hlv : ver = "latest"
      · rw [if_pos (Or.inl hlv), if_pos hlv]
      · rw [if_neg (by rintro (h | h | h) <;>
            first | exact hlv h | exact hnne h | exact hvne h), if_neg hlv]
    have h1 : parsePipFilename filename = (match wheelBranch filename with
        | some r => r
        | none =>
            match sdistExtMatch filename with
            | some e =>
                match sdistBranch filename e with
                | some r => r
                | none => (none, none)
            | none => (none, none)) := by
      unfold parsePipFilename
      rw [hwhl]
      rfl
    rw [hparse, h1, hwb]
  · intro name ver ext hmem hfn hnne hvd hvne
    have hwhlF : strEndsWith filename ".whl" = false := by
      rw [hfn]
      fin_cases hmem <;> (apply strEndsWith_append_false; rfl)
    have hsm : sdistExtMatch filename = some ext := by
      rw [hfn]
      exact sdistExtMatch_append _ ext hmem
    have hdata : filename.data = (name.data ++ '-' :: ver.data) ++ ext.data := by
      rw [hfn]
      simp only [String.data_append, show ("-" : String).data = ['-'] from rfl,
        List.append_assoc, List.cons_append, List.singleton_append, List.nil_append]
    have hbase : filename.data.take (filename.data.length - ext.data.length)
        = name.data ++ '-' :: ver.data := by
      rw [hdata]
      exact take_sub_append _ _
    have hsb : sdistBranch filename ext
        = some (if ver = "latest" then ((none, none) : Option String × Option String)
            else (some name, some ver)) := by
      simp only [sdistBranch, hbase, breakAtLastDash_append name.data ver.data hvd,
        ite_or_false (strData_isEmpty_false name hnne) (strData_isEmpty_false ver hvne),
        show String.mk name.data = name from rfl, show String.mk ver.data = ver from rfl]
      by_cases hlv : ver = "latest"
      · rw [if_pos (Or.inl hlv), if_pos hlv]
      · rw [if_neg (by rintro (h | h | h) <;>
            first | exact hlv h | exact hnne h | exact hvne h), if_neg hlv]
    have h1 : parsePipFilename filename = (match sdistExtMatch filename with
        | some e =>
            match sdistBranch filename e with
            | some r => r
            | none => (none, none)
        | none => (none, none)) := by
      unfold parsePipFilename
      rw [hwhlF]
      rfl
    rw [hparse, h1, hsm]
    show (match sdistBranch filename ext with
      | some r => r
      | none => ((none, none) : Option String × Option String)) = _
    rw [hsb]
  · intro hwhlF hsmN
    rw [hparse]
    unfold parsePipFilename
    rw [hwhlF, hsmN]
    rfl

/-- Witness for `pip_parse_contract`: a wheel URL parses into name and
version, an sdist URL splits at the last dash, and a `latest` sdist version is
rejected. -/
theorem pip_parse_contract_witness :
    parsePipPackageFromUrl
      "https://files.pythonhosted.org/packages/ab/cd/typing_extensions-4.8.0-py3-none-any.whl"
      = (some "typing_extensions", some "4.8.0")
    ∧ parsePipPackageFromUrl
      "https://files.pythonhosted.org/packages/ab/cd/python-dateutil-2.8.2.tar.gz"
      = (some "python-dateutil", some "2.8.2")
    ∧ parsePipPackageFromUrl
      "https://files.pythonhosted.org/packages/ab/cd/requests-latest.zip"
      = (none, none) := by
  refine ⟨?_, ?_, ?_⟩
  · have h := (pip_parse_contract
      "https://files.pythonhosted.org/packages/ab/cd/typing_extensions-4.8.0-py3-none-any.whl"
      "typing_extensions-4.8.0-py3-none-any.whl" (by decide)).1
      "typing_extensions" "4.8.0" "py3-none-any" (by decide) (by decide) (by decide)
      (by decide) (by decide)
    rw [h, if_neg (by decide)]
  · have h := (pip_parse_contract
      "https://files.pythonhosted.org/packages/ab/cd/python-dateutil-2.8.2.tar.gz"
      "python-dateutil-2.8.2.tar.gz" (by decide)).2.2.1
      "python-dateutil" "2.8.2" ".tar.gz" (by decide) (by decide) (by decide)
      (by decide) (by decide)
    rw [h, if_neg (by decide)]
  · have h := (pip_parse_contract
      "https://files.pythonhosted.org/packages/ab/cd/requests-latest.zip"
      "requests-latest.zip" (by decide)).2.2.1
      "requests" "latest" ".zip" (by decide) (by decide) (by decide)
      (by decide) (by decide)
    rw [h, if_pos (by decide)]
